import Mathlib

/-!
Verification of the data-access layer of a vehicle-repair workshop manager
(`database.py`), shallowly embedded in Lean 4.

Modelling conventions:
* SQLite rows become Lean structures; tables become lists inside `DBState`.
* `REAL` money columns become `Rat`; `INTEGER` quantity columns become `Int`.
* `TEXT` columns become `String`; all string matching works on `String.data`
  (`List Char`), so byte-wise SQLite `BINARY` collation corresponds to the
  code-point lexicographic order on `List Char`.
* `LOWER(...)` (SQLite, ASCII-only) and Python's `str.lower()` are both
  modelled as `Char.toLower`, which is exactly SQLite's ASCII lowering; the
  divergence between the two originals on non-ASCII input is outside the
  model.
* SQL `LIKE` (applied in the source to operands that are already lowered, so
  its own ASCII case folding is the identity there) is modelled by the pattern
  matcher `likeMatch` with the standard `%`/`_` wildcard semantics.
* SQL result ordering: `ORDER BY` is modelled by a deterministic insertion
  sort (`sortBy`); the relative order of rows with equal sort keys is
  unspecified in SQLite, so any deterministic choice is a faithful refinement.
* `SELECT DISTINCT` is modelled by `dedupFirst` (keep the first copy of each
  duplicated row); again SQLite does not specify which duplicate survives.
-/

namespace Workshop

/-- Character lists: the representation of SQL text values during matching. -/
abbrev Str := List Char

/-! ## Generic list machinery: substring search, LIKE, dedup, sort -/

/-- `startsWithB t kw` : does `t` begin with `kw`? -/
def startsWithB : Str → Str → Bool
  | _, [] => true
  | [], _ :: _ => false
  | a :: as, b :: bs => (a == b) && startsWithB as bs

/-- All suffixes of a list, longest first (including the list itself and `[]`). -/
def suffixes : Str → List Str
  | [] => [[]]
  | c :: t => (c :: t) :: suffixes t

/-- `occursB kw t` : does `kw` occur contiguously inside `t`? -/
def occursB (kw t : Str) : Bool := (suffixes t).any fun s => startsWithB s kw

/-- SQL `LIKE` pattern matching (`%` = any sequence, `_` = any one character).
In the source every `LIKE` is applied to operands already passed through
`LOWER`, where `LIKE`'s ASCII case folding is the identity, so no folding
appears here. Recursion is structural in the pattern. -/
def likeMatch : Str → Str → Bool
  | [], t => t.isEmpty
  | p :: ps, t =>
    if p = '%' then (suffixes t).any fun t2 => likeMatch ps t2
    else
      match t with
      | [] => false
      | c :: ts => (if p = '_' then true else p == c) && likeMatch ps ts

/-- Remove duplicates, keeping the first occurrence of each element
(the model of `SELECT DISTINCT`). -/
def dedupFirst {α : Type} [DecidableEq α] : List α → List α
  | [] => []
  | a :: l => a :: (dedupFirst l).filter fun b => ¬ b = a

/-- Insert into a list sorted by the Boolean relation `r` (`r a b` = "`a` may
come directly before `b`"). -/
def insertBy {α : Type} (r : α → α → Bool) (a : α) : List α → List α
  | [] => [a]
  | b :: l => if r a b then a :: b :: l else b :: insertBy r a l

/-- Insertion sort by the Boolean relation `r` (the model of `ORDER BY`). -/
def sortBy {α : Type} (r : α → α → Bool) : List α → List α
  | [] => []
  | a :: l => insertBy r a (sortBy r l)

/-- Lexicographic (code-point) order on character lists: the order SQLite's
default `BINARY` collation gives to the UTF-8 text values compared here. -/
def lexLe : Str → Str → Bool
  | [], _ => true
  | _ :: _, [] => false
  | a :: as, b :: bs =>
    if a.toNat = b.toNat then lexLe as bs else decide (a.toNat < b.toNat)

/-- A pattern without LIKE wildcards. -/
def noWild (kw : Str) : Prop := ¬ '%' ∈ kw ∧ ¬ '_' ∈ kw

instance (kw : Str) : Decidable (noWild kw) := by unfold noWild; infer_instance

/-- A row of the `customers` table. -/
structure Customer where
  id : Nat
  name : String
  phone : String
  address : String
deriving DecidableEq, Repr

/-- A row of the `vehicles` table (`customer_phone` is a soft foreign key to
`customers.phone`). -/
structure Vehicle where
  id : Nat
  license_plate : String
  brand : String
  model : String
  customer_phone : String
deriving DecidableEq, Repr

/-- A row of the `work_orders` table. `status` defaults to `"Open"`,
`total_cost` to `0`, `payment_status` to `"Unpaid"`. -/
structure WorkOrder where
  id : Nat
  vehicle_id : Nat
  entry_date : String
  status : String
  total_cost : Rat
  payment_status : String
deriving DecidableEq, Repr

/-- A row of the `services` table. -/
structure Service where
  id : Nat
  work_order_id : Nat
  name : String
  description : String
  quantity : Int
  price : Rat
deriving DecidableEq, Repr

/-- A row of the `spare_parts` table (structurally identical to `services`). -/
structure SparePart where
  id : Nat
  work_order_id : Nat
  name : String
  description : String
  quantity : Int
  price : Rat
deriving DecidableEq, Repr

/-- A row of the `invoices` table. `status` defaults to `"Unpaid"`. -/
structure Invoice where
  id : Nat
  work_order_id : Nat
  invoice_date : String
  total_amount : Rat
  status : String
deriving DecidableEq, Repr

/-- A row of the `service_templates` table; `is_active` is the SQLite INTEGER
flag (default 1). -/
structure ServiceTemplate where
  id : Nat
  name : String
  description : String
  default_price : Rat
  category : String
  is_active : Int
deriving DecidableEq, Repr

/-- A row of the `spare_part_templates` table. -/
structure SparePartTemplate where
  id : Nat
  name : String
  description : String
  default_price : Rat
  category : String
  supplier : String
  part_number : String
  is_active : Int
deriving DecidableEq, Repr

/-- The database state: one list per table, plus the AUTOINCREMENT counters
for the tables whose fresh ids the model needs. -/
structure DBState where
  customers : List Customer
  vehicles : List Vehicle
  workOrders : List WorkOrder
  services : List Service
  spareParts : List SparePart
  invoices : List Invoice
  serviceTemplates : List ServiceTemplate
  sparePartTemplates : List SparePartTemplate
  nextServiceId : Nat
  nextPartId : Nat
  nextInvoiceId : Nat
deriving DecidableEq, Repr

/-! ## Text helpers shared by the queries -/

/-- `LOWER(...)` / `str.lower()` on a text value, at the character-list level
(ASCII lowering, exactly SQLite's `LOWER`). -/
def low (s : String) : Str := s.data.map Char.toLower

/-- Python's `str.strip()` (leading and trailing whitespace removed). -/
def stripData (l : Str) : Str :=
  (((l.dropWhile fun c => c.isWhitespace).reverse.dropWhile fun c => c.isWhitespace).reverse)

/-- The `f"%{kw}%"` LIKE pattern built by the source around a keyword. -/
def pctPat (kw : Str) : Str := '%' :: (kw ++ ['%'])

/-- `COALESCE(x.name, '')` for an outer-joined `services`/`spare_parts` row. -/
def coalNameS : Option Service → String
  | none => ""
  | some s => s.name

def coalDescS : Option Service → String
  | none => ""
  | some s => s.description

def coalNameP : Option SparePart → String
  | none => ""
  | some p => p.name

def coalDescP : Option SparePart → String
  | none => ""
  | some p => p.description

/-- The row set a `LEFT JOIN` contributes for one work order: the matching
child rows, or a single all-NULL row when there are none. -/
def optList {α : Type} (l : List α) : List (Option α) :=
  if l.isEmpty then [none] else l.map some

/-- The `services` rows of one work order, as the LEFT JOIN sees them. -/
def servOpts (st : DBState) (woId : Nat) : List (Option Service) :=
  optList (st.services.filter fun s => s.work_order_id == woId)

/-- The `spare_parts` rows of one work order, as the LEFT JOIN sees them. -/
def partOpts (st : DBState) (woId : Nat) : List (Option SparePart) :=
  optList (st.spareParts.filter fun p => p.work_order_id == woId)

/-! ## Joined listing queries -/

/-- An output row of the vehicle listings (`SELECT v.*, c.name`). -/
structure VehicleRow where
  v : Vehicle
  customer_name : String
deriving DecidableEq, Repr

/-- An output row of the work-order listings
(`SELECT wo.*, v.license_plate, v.brand, v.model, c.name, c.phone`). -/
structure WorkOrderRow where
  wo : WorkOrder
  license_plate : String
  brand : String
  model : String
  customer_name : String
  customer_phone : String
deriving DecidableEq, Repr

/-- `FROM vehicles v JOIN customers c ON v.customer_phone = c.phone`. -/
def vehicleJoin (st : DBState) : List VehicleRow :=
  st.vehicles.flatMap fun v =>
    (st.customers.filter fun c => c.phone == v.customer_phone).map fun c =>
      { v := v, customer_name := c.name }

/-- Descending-by-`license_plate` is ascending lexicographic order; the
listings order by `v.license_plate` ascending. -/
def plateLe (a b : VehicleRow) : Bool := lexLe a.v.license_plate.data b.v.license_plate.data

/-- `get_vehicles`: all vehicles with customer information,
`ORDER BY v.license_plate`. -/
def get_vehicles (st : DBState) : List VehicleRow :=
  sortBy plateLe (vehicleJoin st)

/-- `search_vehicles`: plate/brand/model `LIKE %term%`, same join and order.
SQLite `LIKE` folds ASCII case on both operands; that folding is modelled by
applying `low` to pattern body and text before the fold-free `likeMatch`
(`%`/`_` are fix-points of the folding, so lowering the pattern body only is
the same as folding the whole pattern). -/
def search_vehicles (term : String) (st : DBState) : List VehicleRow :=
  sortBy plateLe ((vehicleJoin st).filter fun r =>
    likeMatch (pctPat (low term)) (low r.v.license_plate) ||
    likeMatch (pctPat (low term)) (low r.v.brand) ||
    likeMatch (pctPat (low term)) (low r.v.model))

/-- The joined output row built from one work order, vehicle and customer. -/
def mkRow (wo : WorkOrder) (v : Vehicle) (c : Customer) : WorkOrderRow :=
  { wo := wo, license_plate := v.license_plate, brand := v.brand, model := v.model,
    customer_name := c.name, customer_phone := c.phone }

/-- `FROM work_orders wo JOIN vehicles v ON wo.vehicle_id = v.id
JOIN customers c ON v.customer_phone = c.phone`. -/
def workOrderJoin (st : DBState) : List WorkOrderRow :=
  st.workOrders.flatMap fun wo =>
    (st.vehicles.filter fun v => v.id == wo.vehicle_id).flatMap fun v =>
      (st.customers.filter fun c => c.phone == v.customer_phone).map fun c =>
        { wo := wo, license_plate := v.license_plate, brand := v.brand, model := v.model,
          customer_name := c.name, customer_phone := c.phone }

/-- `ORDER BY wo.entry_date DESC` as a Boolean relation on rows. -/
def dateDesc (a b : WorkOrderRow) : Bool := lexLe b.wo.entry_date.data a.wo.entry_date.data

/-- `get_work_orders`: the full joined listing, entry date descending. -/
def get_work_orders (st : DBState) : List WorkOrderRow :=
  sortBy dateDesc (workOrderJoin st)

/-- The `WHERE` disjunction of `search_work_orders` on one fully joined row
(`LOWER(field) LIKE ?` with the pattern `f"%{keyword.lower()}%"`), in source
order: customer name, service description, service name, part description,
part name. -/
def searchCond (kwLow : Str) (r : WorkOrderRow) (so : Option Service)
    (po : Option SparePart) : Bool :=
  likeMatch (pctPat kwLow) (low r.customer_name) ||
  likeMatch (pctPat kwLow) (low (coalDescS so)) ||
  likeMatch (pctPat kwLow) (low (coalNameS so)) ||
  likeMatch (pctPat kwLow) (low (coalDescP po)) ||
  likeMatch (pctPat kwLow) (low (coalNameP po))

/-- `search_work_orders`: `SELECT DISTINCT` over the work-order join LEFT
JOINed with services and spare parts, keyword disjunction, entry date
descending. A base row survives iff some of its `(service?, part?)` LEFT
JOIN extensions satisfies the disjunction; `DISTINCT` then collapses the
copies (the selected columns all come from the base row). -/
def search_work_orders (keyword : String) (st : DBState) : List WorkOrderRow :=
  sortBy dateDesc (dedupFirst ((workOrderJoin st).filter fun r =>
    (servOpts st r.wo.id).any fun so =>
      (partOpts st r.wo.id).any fun po => searchCond (low keyword) r so po))

/-- The fixed keyword buckets of `filter_work_orders`. -/
def preventiveKeywords : List String :=
  ["oil", "filter", "rotate", "rotation", "align", "alignment", "battery",
   "coolant", "maintenance", "service", "flush", "tune"]

def correctiveKeywords : List String :=
  ["repair", "replace", "fix", "leak", "broken", "failure", "install",
   "adjust", "calibrate"]

def inspectionKeywords : List String :=
  ["inspect", "inspection", "diagnos", "check", "test", "evaluate"]

/-- The bucket selected by the normalised `service_type` value, if any. -/
def bucketOf (tyN : Str) : Option (List String) :=
  if tyN = "preventive".data then some preventiveKeywords
  else if tyN = "corrective".data then some correctiveKeywords
  else if tyN = "inspection".data then some inspectionKeywords
  else none

/-- `LOWER(COALESCE(s.name,'') || ' ' || COALESCE(s.description,'') || ' ' ||
COALESCE(p.name,'') || ' ' || COALESCE(p.description,''))` for one joined row. -/
def rowConcat (so : Option Service) (po : Option SparePart) : Str :=
  ((coalNameS so).data ++ ' ' :: (coalDescS so).data ++ ' ' :: (coalNameP po).data
    ++ ' ' :: (coalDescP po).data).map Char.toLower

/-- The `WHERE` keyword condition of `filter_work_orders` on one joined row,
in its source order: customer name, service name, service description, part
name, part description. -/
def filterKwCond (kwN : Str) (r : WorkOrderRow) (so : Option Service)
    (po : Option SparePart) : Bool :=
  likeMatch (pctPat kwN) (low r.customer_name) ||
  likeMatch (pctPat kwN) (low (coalNameS so)) ||
  likeMatch (pctPat kwN) (low (coalDescS so)) ||
  likeMatch (pctPat kwN) (low (coalNameP po)) ||
  likeMatch (pctPat kwN) (low (coalDescP po))

/-- The service-type condition: some bucket keyword LIKE-matches the
concatenated line-item text of the joined row. -/
def typeCond (kws : List String) (so : Option Service) (po : Option SparePart) : Bool :=
  kws.any fun w => likeMatch (pctPat w.data) (rowConcat so po)

/-- The full `WHERE` clause of `filter_work_orders` on one joined row: the
conditions actually added are ANDed; an absent condition contributes `true`. -/
def filterLineCond (kwN : Str) (tyN : Str) (r : WorkOrderRow) (so : Option Service)
    (po : Option SparePart) : Bool :=
  (if kwN = [] then true else filterKwCond kwN r so po) &&
  (match bucketOf tyN with
   | none => true
   | some kws => typeCond kws so po)

/-- `(keyword or "").strip().lower()` at the character-list level. -/
def normKeyword (keyword : String) : Str := (stripData keyword.data).map Char.toLower

/-- `(service_type or "").strip().lower()` (the final `or None` only matters
through `bucketOf`, which treats the empty normalised string as no bucket). -/
def normType (serviceType : Option String) : Str :=
  (stripData (match serviceType with | none => "" | some s => s).data).map Char.toLower

/-- `filter_work_orders`: optional keyword and optional service type, both
conditions evaluated per joined `(work order, service?, part?)` row and ANDed
inside the single `WHERE`; `SELECT DISTINCT`, entry date descending. -/
def filter_work_orders (keyword : String) (serviceType : Option String)
    (st : DBState) : List WorkOrderRow :=
  sortBy dateDesc (dedupFirst ((workOrderJoin st).filter fun r =>
    (servOpts st r.wo.id).any fun so =>
      (partOpts st r.wo.id).any fun po =>
        filterLineCond (normKeyword keyword) (normType serviceType) r so po))

/-- The status post-filter of `WorkOrdersFrame.refresh`
(`[wo for wo in work_orders if wo['status'] == status_filter]`). -/
def statusPostFilter (statusF : String) (l : List WorkOrderRow) : List WorkOrderRow :=
  l.filter fun r => r.wo.status == statusF

/-- `get_work_order_details`: the inner-joined detail row, `WHERE wo.id = ?`,
first result or `None`. -/
def get_work_order_details (st : DBState) (workOrderId : Nat) : Option WorkOrderRow :=
  ((workOrderJoin st).filter fun r => r.wo.id == workOrderId).head?

/-! ## Derived totals and line-item operations -/

/-- `SELECT SUM(quantity * price) FROM services WHERE work_order_id = ?`,
with the Python `or 0` collapsing the NULL (empty) case to `0`. -/
def servicesTotal (st : DBState) (workOrderId : Nat) : Rat :=
  (((st.services.filter fun s => s.work_order_id == workOrderId).map
    fun s => (s.quantity : Rat) * s.price).sum)

/-- The spare-part analogue of `servicesTotal`. -/
def partsTotal (st : DBState) (workOrderId : Nat) : Rat :=
  (((st.spareParts.filter fun p => p.work_order_id == workOrderId).map
    fun p => (p.quantity : Rat) * p.price).sum)

/-- `calculate_work_order_total`: compute the two sums, persist their sum as
the order's `total_cost`, and return it. -/
def calculate_work_order_total (st : DBState) (workOrderId : Nat) : Rat × DBState :=
  let total := servicesTotal st workOrderId + partsTotal st workOrderId
  (total,
   { st with workOrders := st.workOrders.map fun wo =>
      if wo.id = workOrderId then { wo with total_cost := total } else wo })

/-- `add_service`: insert the row, then recalculate the order's total. -/
def add_service (st : DBState) (workOrderId : Nat) (name description : String)
    (quantity : Int) (price : Rat) : Nat × DBState :=
  let st1 := { st with
    services := st.services ++
      [{ id := st.nextServiceId, work_order_id := workOrderId, name := name,
         description := description, quantity := quantity, price := price }],
    nextServiceId := st.nextServiceId + 1 }
  (st.nextServiceId, (calculate_work_order_total st1 workOrderId).2)

/-- `add_spare_part`: insert the row, then recalculate the order's total. -/
def add_spare_part (st : DBState) (workOrderId : Nat) (name description : String)
    (quantity : Int) (price : Rat) : Nat × DBState :=
  let st1 := { st with
    spareParts := st.spareParts ++
      [{ id := st.nextPartId, work_order_id := workOrderId, name := name,
         description := description, quantity := quantity, price := price }],
    nextPartId := st.nextPartId + 1 }
  (st.nextPartId, (calculate_work_order_total st1 workOrderId).2)

/-- `delete_service`: `DELETE FROM services WHERE id = ?`, then recalculate
the total of the work order the caller names. -/
def delete_service (st : DBState) (serviceId workOrderId : Nat) : DBState :=
  let st1 := { st with services := st.services.filter fun s => ¬ s.id = serviceId }
  (calculate_work_order_total st1 workOrderId).2

/-- `delete_spare_part`: the spare-part analogue of `delete_service`. -/
def delete_spare_part (st : DBState) (partId workOrderId : Nat) : DBState :=
  let st1 := { st with spareParts := st.spareParts.filter fun p => ¬ p.id = partId }
  (calculate_work_order_total st1 workOrderId).2

/-- The line-item operations of the claims, plus the bare recalculation. -/
inductive Op : Type where
  | addService (workOrderId : Nat) (name description : String) (quantity : Int) (price : Rat)
  | addSparePart (workOrderId : Nat) (name description : String) (quantity : Int) (price : Rat)
  | delService (serviceId workOrderId : Nat)
  | delSparePart (partId workOrderId : Nat)
  | recalc (workOrderId : Nat)
deriving DecidableEq, Repr

/-- The work order an operation names (`work_order_id` argument). -/
def Op.target : Op → Nat
  | .addService w _ _ _ _ => w
  | .addSparePart w _ _ _ _ => w
  | .delService _ w => w
  | .delSparePart _ w => w
  | .recalc w => w

def applyOp (st : DBState) : Op → DBState
  | .addService w n d q p => (add_service st w n d q p).2
  | .addSparePart w n d q p => (add_spare_part st w n d q p).2
  | .delService sid w => delete_service st sid w
  | .delSparePart pid w => delete_spare_part st pid w
  | .recalc w => (calculate_work_order_total st w).2

def applyOps (ops : List Op) (st : DBState) : DBState := ops.foldl applyOp st

/-! ## Invoices -/

/-- `create_invoice`: look the order up through the inner-joined detail query;
raise `ValueError("Work order not found")` when absent (no row inserted),
otherwise insert the snapshot invoice and return its id. `today` stands for
`datetime.now().strftime('%Y-%m-%d')`. -/
def create_invoice (today : String) (st : DBState) (workOrderId : Nat) :
    Except String Nat × DBState :=
  match get_work_order_details st workOrderId with
  | none => (.error "Work order not found", st)
  | some row =>
      (.ok st.nextInvoiceId,
       { st with
          invoices := st.invoices ++
            [{ id := st.nextInvoiceId, work_order_id := workOrderId,
               invoice_date := today, total_amount := row.wo.total_cost,
               status := "Unpaid" }],
          nextInvoiceId := st.nextInvoiceId + 1 })

/-! ## Template catalog operations

The bodies below are embedded from the template-operation code of
`database.py`. In the source these functions are nested (mis-indented) inside
`set_setting` after its `return` statement, so at runtime the class never
gains them as methods; the definitions here model the written bodies. -/

/-- `ORDER BY category, name` on service templates. -/
def svcTplLe (a b : ServiceTemplate) : Bool :=
  if a.category = b.category then lexLe a.name.data b.name.data
  else lexLe a.category.data b.category.data

/-- `ORDER BY category, name` on spare-part templates. -/
def partTplLe (a b : SparePartTemplate) : Bool :=
  if a.category = b.category then lexLe a.name.data b.name.data
  else lexLe a.category.data b.category.data

/-- `get_service_templates`: optionally `WHERE is_active = 1`, ordered by
category then name. -/
def get_service_templates (activeOnly : Bool) (st : DBState) : List ServiceTemplate :=
  sortBy svcTplLe
    (if activeOnly then st.serviceTemplates.filter fun t => t.is_active == 1
     else st.serviceTemplates)

/-- `toggle_service_template_status`:
`UPDATE service_templates SET is_active = 1 - is_active WHERE id = ?`. -/
def toggle_service_template_status (st : DBState) (templateId : Nat) : DBState :=
  { st with serviceTemplates := st.serviceTemplates.map fun t =>
      if t.id = templateId then { t with is_active := 1 - t.is_active } else t }

/-- `get_spare_part_templates`: optionally `WHERE is_active = 1`, ordered by
category then name. -/
def get_spare_part_templates (activeOnly : Bool) (st : DBState) : List SparePartTemplate :=
  sortBy partTplLe
    (if activeOnly then st.sparePartTemplates.filter fun t => t.is_active == 1
     else st.sparePartTemplates)

/-- `toggle_spare_part_template_status`:
`UPDATE spare_part_templates SET is_active = 1 - is_active WHERE id = ?`. -/
def toggle_spare_part_template_status (st : DBState) (templateId : Nat) : DBState :=
  { st with sparePartTemplates := st.sparePartTemplates.map fun t =>
      if t.id = templateId then { t with is_active := 1 - t.is_active } else t }

/-! ## Reports -/

/-- Truthiness of an optional date argument (`if start_date and end_date`):
Python treats both `None` and `""` as false. -/
def truthy : Option String → Bool
  | none => false
  | some s => ¬ s = ""

/-- `wo.entry_date BETWEEN ? AND ?` (inclusive, byte-lexicographic on the
stored TEXT dates). -/
def betweenDates (startD endD : String) (d : String) : Bool :=
  lexLe startD.data d.data && lexLe d.data endD.data

/-- The work orders the date filter of `get_repair_statistics` keeps: the
filter is built only when both bounds are truthy. -/
def dateFilteredOrders (startD endD : Option String) (st : DBState) : List WorkOrder :=
  if truthy startD && truthy endD then
    st.workOrders.filter fun wo =>
      betweenDates (startD.getD "") (endD.getD "") wo.entry_date
  else st.workOrders

/-- One entry of the `top_services` report (name, usage count, summed
quantity). -/
structure TopService where
  name : String
  usage_count : Nat
  total_quantity : Int
deriving DecidableEq, Repr

/-- One entry of the `top_customers` report. -/
structure TopCustomer where
  name : String
  phone : String
  order_count : Nat
  total_spent : Rat
deriving DecidableEq, Repr

/-- The scalar block of `get_repair_statistics`. SQLite `SUM`/`AVG` over an
empty row set are NULL, hence the `Option` results there, while `COUNT(*)`
is `0`. -/
structure RepairStats where
  total_orders : Nat
  completed_orders : Option Nat
  open_orders : Option Nat
  total_revenue : Option Rat
  avg_order_value : Option Rat
  top_services : List TopService
  top_customers : List TopCustomer
deriving DecidableEq, Repr

/-- `ORDER BY usage_count DESC` on top-service entries. -/
def usageDesc (a b : TopService) : Bool := b.usage_count ≤ a.usage_count

/-- `ORDER BY order_count DESC` on top-customer entries. -/
def orderCountDesc (a b : TopCustomer) : Bool := b.order_count ≤ a.order_count

/-- `services s JOIN work_orders wo` restricted to the date-filtered orders,
grouped by `s.name` with `COUNT(*)` and `SUM(s.quantity)`, top 10 by usage. -/
def topServices (orders : List WorkOrder) (st : DBState) : List TopService :=
  let rows := st.services.filter fun s => orders.any fun wo => wo.id == s.work_order_id
  let names := dedupFirst (rows.map fun s => s.name)
  (sortBy usageDesc (names.map fun n =>
    let grp := rows.filter fun s => s.name == n
    { name := n, usage_count := grp.length,
      total_quantity := (grp.map fun s => s.quantity).sum })).take 10

/-- `customers c JOIN vehicles v JOIN work_orders wo` restricted to the
date-filtered orders, grouped by `(c.name, c.phone)` with `COUNT(wo.id)` and
`SUM(wo.total_cost)`, top 10 by order count. -/
def topCustomers (orders : List WorkOrder) (st : DBState) : List TopCustomer :=
  let rows := st.customers.flatMap fun c =>
    (st.vehicles.filter fun v => v.customer_phone == c.phone).flatMap fun v =>
      (orders.filter fun wo => wo.vehicle_id == v.id).map fun wo => (c, wo)
  let keys := dedupFirst (rows.map fun cw => (cw.1.name, cw.1.phone))
  (sortBy orderCountDesc (keys.map fun k =>
    let grp := rows.filter fun cw => cw.1.name == k.1 && cw.1.phone == k.2
    { name := k.1, phone := k.2, order_count := grp.length,
      total_spent := (grp.map fun cw => cw.2.total_cost).sum })).take 10

/-- `get_repair_statistics`: the scalar aggregate plus the two top-10 lists,
all over the same (optionally date-bounded) order set; the bound applies only
when both `start_date` and `end_date` are truthy. -/
def get_repair_statistics (startD endD : Option String) (st : DBState) : RepairStats :=
  let orders := dateFilteredOrders startD endD st
  { total_orders := orders.length,
    completed_orders :=
      if orders.isEmpty then none
      else some (orders.countP fun wo => wo.status == "Completed"),
    open_orders :=
      if orders.isEmpty then none
      else some (orders.countP fun wo => wo.status == "Open"),
    total_revenue :=
      if orders.isEmpty then none else some ((orders.map fun wo => wo.total_cost).sum),
    avg_order_value :=
      if orders.isEmpty then none
      else some ((orders.map fun wo => wo.total_cost).sum / orders.length),
    top_services := topServices orders st,
    top_customers := topCustomers orders st }

/-- The grouping key of `get_revenue_by_period`: the full `YYYY-MM-DD` date
for `'daily'` (`DATE(entry_date)` is the identity on the stored ISO dates),
its first 7 characters for `'monthly'`, its first 4 otherwise (`yearly`). -/
def periodKey (period : String) (d : String) : Str :=
  if period = "daily" then d.data
  else if period = "monthly" then d.data.take 7
  else d.data.take 4

/-- One row of the revenue-by-period report. -/
structure PeriodStat where
  period : Str
  order_count : Nat
  revenue : Rat
  avg_order_value : Rat
deriving DecidableEq, Repr

/-- `get_revenue_by_period`: only `status = 'Completed'` orders, grouped by
the period key, `COUNT(*)`, `SUM(total_cost)`, `AVG(total_cost)` per group,
`ORDER BY period DESC LIMIT 12`. The function takes no date bounds. -/
def get_revenue_by_period (period : String) (st : DBState) : List PeriodStat :=
  let completed := st.workOrders.filter fun wo => wo.status == "Completed"
  let keys := dedupFirst (completed.map fun wo => periodKey period wo.entry_date)
  ((sortBy (fun a b => lexLe b a) keys).take 12).map fun k =>
    let grp := completed.filter fun wo => periodKey period wo.entry_date == k
    { period := k, order_count := grp.length,
      revenue := (grp.map fun wo => wo.total_cost).sum,
      avg_order_value := (grp.map fun wo => wo.total_cost).sum / grp.length }

/-- A concrete run for C1: an order holding a stale total (999) and one old
service; add a service (2 x 50), delete a stray part id, add a part (1 x 30),
delete the old service: the persisted and returned totals are the line-item
sum. -/
def stC1 : DBState :=
  { customers := [], vehicles := [],
    workOrders := [{ id := 1, vehicle_id := 1, entry_date := "2024-01-01",
                     status := "Open", total_cost := 999, payment_status := "Unpaid" }],
    services := [{ id := 5, work_order_id := 1, name := "Old", description := "",
                   quantity := 1, price := 7 }],
    spareParts := [], invoices := [], serviceTemplates := [], sparePartTemplates := [],
    nextServiceId := 6, nextPartId := 1, nextInvoiceId := 1 }

def opsC1 : List Op :=
  [Op.addService 1 "Oil change" "" 2 50, Op.delSparePart 3 1,
   Op.addSparePart 1 "Filter" "" 1 30, Op.delService 5 1]

/-- A one-customer, one-vehicle, one-order state for concrete witnesses. -/
def stJoin : DBState :=
  { customers := [{ id := 1, name := "Bob", phone := "111", address := "" }],
    vehicles := [{ id := 1, license_plate := "AB-123", brand := "Toyota",
                   model := "Corolla", customer_phone := "111" }],
    workOrders := [{ id := 1, vehicle_id := 1, entry_date := "2024-01-01",
                     status := "Open", total_cost := 0, payment_status := "Unpaid" }],
    services := [], spareParts := [], invoices := [],
    serviceTemplates := [], sparePartTemplates := [],
    nextServiceId := 1, nextPartId := 1, nextInvoiceId := 1 }

def rowVJoin : VehicleRow :=
  { v := { id := 1, license_plate := "AB-123", brand := "Toyota", model := "Corolla",
           customer_phone := "111" },
    customer_name := "Bob" }

/-- The detail row of `stJoin`'s only work order. -/
def rowJoin : WorkOrderRow :=
  { wo := { id := 1, vehicle_id := 1, entry_date := "2024-01-01",
            status := "Open", total_cost := 0, payment_status := "Unpaid" },
    license_plate := "AB-123", brand := "Toyota", model := "Corolla",
    customer_name := "Bob", customer_phone := "111" }

/-- A state with no matching work order, for the C8 witness. -/
def stEmpty : DBState :=
  { customers := [], vehicles := [], workOrders := [], services := [], spareParts := [],
    invoices := [], serviceTemplates := [], sparePartTemplates := [],
    nextServiceId := 1, nextPartId := 1, nextInvoiceId := 1 }


/-- Case-insensitive substring containment: the spec's notion of matching.
Lowering is the ASCII lowering shared by the model (see the header). -/
def ciContains (needle hay : String) : Bool := occursB (low needle) (low hay)

/-- The spec-side match predicate of the keyword search: the customer name or
some of the order's services' or spare parts' name or description contains the
keyword case-insensitively. -/
def searchMatches (keyword : String) (st : DBState) (r : WorkOrderRow) : Prop :=
  ciContains keyword r.customer_name = true ∨
  (∃ s ∈ st.services, s.work_order_id = r.wo.id ∧
    (ciContains keyword s.name = true ∨ ciContains keyword s.description = true)) ∨
  (∃ p ∈ st.spareParts, p.work_order_id = r.wo.id ∧
    (ciContains keyword p.name = true ∨ ciContains keyword p.description = true))

instance (keyword : String) (st : DBState) (r : WorkOrderRow) :
    Decidable (searchMatches keyword st r) := by
  unfold searchMatches; infer_instance

/-- The name and description of every line item of one work order, in table
order (services then spare parts) — the claim's "all the order's line-item
names and descriptions". -/
def allItemFields (st : DBState) (woId : Nat) : List String :=
  ((st.services.filter fun s => s.work_order_id == woId).flatMap
    fun s => [s.name, s.description]) ++
  ((st.spareParts.filter fun p => p.work_order_id == woId).flatMap
    fun p => [p.name, p.description])

/-- The lowered, space-separated concatenation of a list of text fields. -/
def joinSpaceLow : List String → Str
  | [] => []
  | [f] => low f
  | f :: fs => low f ++ ' ' :: joinSpaceLow fs

/-- The claim-side bucket predicate: some bucket keyword occurs
case-insensitively in the concatenation of all the order's line-item names
and descriptions. -/
def bucketMatches (kws : List String) (st : DBState) (woId : Nat) : Prop :=
  ∃ w ∈ kws, occursB (low w) (joinSpaceLow (allItemFields st woId)) = true

instance (kws : List String) (st : DBState) (woId : Nat) :
    Decidable (bucketMatches kws st woId) := by
  unfold bucketMatches; infer_instance

/-- The three service-type buckets with their claimed keyword lists. -/
def bucketPairs : List (String × List String) :=
  [("Preventive", preventiveKeywords), ("Corrective", correctiveKeywords),
   ("Inspection", inspectionKeywords)]

/-- A state whose only service is named "Oil Change" (the claim's first
example). -/
def stOil : DBState :=
  { customers := [{ id := 1, name := "Ann", phone := "222", address := "" }],
    vehicles := [{ id := 1, license_plate := "PL-1", brand := "B", model := "M",
                   customer_phone := "222" }],
    workOrders := [{ id := 1, vehicle_id := 1, entry_date := "2024-03-01",
                     status := "Open", total_cost := 0, payment_status := "Unpaid" }],
    services := [{ id := 1, work_order_id := 1, name := "Oil Change",
                   description := "", quantity := 1, price := 40 }],
    spareParts := [], invoices := [], serviceTemplates := [], sparePartTemplates := [],
    nextServiceId := 2, nextPartId := 1, nextInvoiceId := 1 }

def rowOil : WorkOrderRow :=
  { wo := { id := 1, vehicle_id := 1, entry_date := "2024-03-01", status := "Open",
            total_cost := 0, payment_status := "Unpaid" },
    license_plate := "PL-1", brand := "B", model := "M",
    customer_name := "Ann", customer_phone := "222" }

/-- The claim's second example service row: "Transmission Replacement". -/
def svcTrans : Service :=
  { id := 1, work_order_id := 1, name := "Transmission Replacement",
    description := "", quantity := 1, price := 40 }

/-- The same state as `stOil` with the service renamed
"Transmission Replacement" (the claim's second example). -/
def stTrans : DBState :=
  { stOil with services := [svcTrans] }

/-- A state with two services, "Alpha" and "Replace", under one order: the
keyword filter and the Corrective bucket are satisfied only by different
line-item rows. -/
def stTwo : DBState :=
  { customers := [{ id := 1, name := "Cust", phone := "333", address := "" }],
    vehicles := [{ id := 1, license_plate := "PL-2", brand := "B", model := "M",
                   customer_phone := "333" }],
    workOrders := [{ id := 1, vehicle_id := 1, entry_date := "2024-04-01",
                     status := "Open", total_cost := 0, payment_status := "Unpaid" }],
    services := [{ id := 1, work_order_id := 1, name := "Alpha", description := "",
                   quantity := 1, price := 10 },
                 { id := 2, work_order_id := 1, name := "Replace", description := "",
                   quantity := 1, price := 10 }],
    spareParts := [], invoices := [], serviceTemplates := [], sparePartTemplates := [],
    nextServiceId := 3, nextPartId := 1, nextInvoiceId := 1 }

def rowTwo : WorkOrderRow :=
  { wo := { id := 1, vehicle_id := 1, entry_date := "2024-04-01", status := "Open",
            total_cost := 0, payment_status := "Unpaid" },
    license_plate := "PL-2", brand := "B", model := "M",
    customer_name := "Cust", customer_phone := "333" }

/-- Formalisation of the claim's words, for the refinement comparison only:
revenue-by-period additionally bounded by an inclusive `[start_date,
end_date]` range on `entry_date`. The embedded `get_revenue_by_period` (from
the source) has no such parameters. -/
def get_revenue_by_period_bounded (period startD endD : String) (st : DBState) :
    List PeriodStat :=
  let completed := st.workOrders.filter fun wo =>
    wo.status == "Completed" && betweenDates startD endD wo.entry_date
  let keys := dedupFirst (completed.map fun wo => periodKey period wo.entry_date)
  ((sortBy (fun a b => lexLe b a) keys).take 12).map fun k =>
    let grp := completed.filter fun wo => periodKey period wo.entry_date == k
    { period := k, order_count := grp.length,
      revenue := (grp.map fun wo => wo.total_cost).sum,
      avg_order_value := (grp.map fun wo => wo.total_cost).sum / grp.length }

/-- Two Completed orders far apart in time, to exhibit the absence of date
bounds in `get_revenue_by_period`. -/
def stRev : DBState :=
  { customers := [], vehicles := [],
    workOrders := [{ id := 1, vehicle_id := 1, entry_date := "1990-01-15",
                     status := "Completed", total_cost := 100, payment_status := "Paid" },
                   { id := 2, vehicle_id := 1, entry_date := "2024-05-01",
                     status := "Completed", total_cost := 200, payment_status := "Paid" }],
    services := [], spareParts := [], invoices := [], serviceTemplates := [],
    sparePartTemplates := [], nextServiceId := 1, nextPartId := 1, nextInvoiceId := 1 }

/-- The spec's example of an order that must not contribute to revenue: Open,
total 500, dated inside the queried month. -/
def woOpen : WorkOrder :=
  { id := 3, vehicle_id := 1, entry_date := "2024-05-20", status := "Open",
    total_cost := 500, payment_status := "Unpaid" }

/-! ## Theorems -/

theorem startsWithB_iff (t kw : Str) : startsWithB t kw = true ↔ ∃ r, t = kw ++ r := by
  induction kw generalizing t with
  | nil => simp [startsWithB]
  | cons b bs ih =>
    cases t with
    | nil => simp [startsWithB]
    | cons a as =>
      simp only [startsWithB, Bool.and_eq_true, beq_iff_eq, ih, List.cons_append,
        List.cons_eq_cons]
      constructor
      · rintro ⟨rfl, r, rfl⟩; exact ⟨r, rfl, rfl⟩
      · rintro ⟨r, rfl, rfl⟩; exact ⟨rfl, r, rfl⟩

theorem mem_suffixes (t s : Str) : s ∈ suffixes t ↔ ∃ a, t = a ++ s := by
  induction t with
  | nil => simp [suffixes, eq_comm]
  | cons c t ih =>
    simp only [suffixes, List.mem_cons, ih]
    constructor
    · rintro (rfl | ⟨a, rfl⟩)
      · exact ⟨[], rfl⟩
      · exact ⟨c :: a, rfl⟩
    · rintro ⟨a, ha⟩
      cases a with
      | nil => left; exact ha.symm
      | cons x xs =>
        right
        simp only [List.cons_append, List.cons_eq_cons] at ha
        exact ⟨xs, ha.2⟩

theorem occursB_iff (kw t : Str) : occursB kw t = true ↔ ∃ a b, t = a ++ kw ++ b := by
  simp only [occursB, List.any_eq_true, mem_suffixes, startsWithB_iff]
  constructor
  · rintro ⟨s, ⟨a, rfl⟩, b, rfl⟩; exact ⟨a, b, by simp⟩
  · rintro ⟨a, b, rfl⟩; exact ⟨kw ++ b, ⟨a, by simp⟩, b, rfl⟩

theorem bool_eq_of_iff {a b : Bool} (h : a = true ↔ b = true) : a = b := by
  cases a <;> cases b <;> simp_all

theorem likeMatch_pct (ps : Str) (t : Str) :
    likeMatch ('%' :: ps) t = (suffixes t).any fun t2 => likeMatch ps t2 := by
  simp [likeMatch]

theorem likeMatch_cons_lit (p : Char) (ps : Str) (c : Char) (ts : Str)
    (hp1 : ¬ p = '%') (hp2 : ¬ p = '_') :
    likeMatch (p :: ps) (c :: ts) = ((p == c) && likeMatch ps ts) := by
  simp [likeMatch, if_neg hp1, if_neg hp2]

theorem likeMatch_cons_nil (p : Char) (ps : Str) (hp1 : ¬ p = '%') :
    likeMatch (p :: ps) [] = false := by
  simp [likeMatch, if_neg hp1]

theorem likeMatch_percent (ps : Str) (t : Str) :
    likeMatch ('%' :: ps) t = true ↔ ∃ a s, t = a ++ s ∧ likeMatch ps s = true := by
  rw [likeMatch_pct]
  simp only [List.any_eq_true, mem_suffixes]
  constructor
  · rintro ⟨s, ⟨a, rfl⟩, hm⟩; exact ⟨a, s, rfl, hm⟩
  · rintro ⟨a, s, rfl, hm⟩; exact ⟨s, ⟨a, rfl⟩, hm⟩

theorem likeMatch_literal_percent (kw : Str) (hw : noWild kw) (t : Str) :
    likeMatch (kw ++ ['%']) t = true ↔ ∃ b, t = kw ++ b := by
  induction kw generalizing t with
  | nil =>
    rw [List.nil_append, likeMatch_percent]
    constructor
    · intro _; exact ⟨t, rfl⟩
    · rintro ⟨b, hb⟩; exact ⟨b, [], by simp [hb], rfl⟩
  | cons c cs ih =>
    have hc1 : ¬ c = '%' := fun h => hw.1 (h ▸ List.mem_cons_self c cs)
    have hc2 : ¬ c = '_' := fun h => hw.2 (h ▸ List.mem_cons_self c cs)
    have hw' : noWild cs :=
      ⟨fun h => hw.1 (List.mem_cons_of_mem c h), fun h => hw.2 (List.mem_cons_of_mem c h)⟩
    cases t with
    | nil =>
      rw [List.cons_append, likeMatch_cons_nil c _ hc1]
      simp
    | cons d ds =>
      rw [List.cons_append, likeMatch_cons_lit c _ d ds hc1 hc2]
      simp only [Bool.and_eq_true, beq_iff_eq, ih hw', List.cons_append, List.cons_eq_cons]
      constructor
      · rintro ⟨rfl, b, rfl⟩; exact ⟨b, rfl, rfl⟩
      · rintro ⟨b, rfl, rfl⟩; exact ⟨rfl, b, rfl⟩

/-- The pattern the source always builds is `f"%{kw}%"`; for a wildcard-free
`kw` it matches exactly the texts containing `kw`. -/
theorem likeMatch_contains (kw : Str) (hw : noWild kw) (t : Str) :
    likeMatch ('%' :: (kw ++ ['%'])) t = occursB kw t := by
  apply bool_eq_of_iff
  rw [likeMatch_percent, occursB_iff]
  constructor
  · rintro ⟨a, s, rfl, hm⟩
    rw [likeMatch_literal_percent kw hw] at hm
    rcases hm with ⟨b, rfl⟩
    exact ⟨a, b, by simp⟩
  · rintro ⟨a, b, rfl⟩
    exact ⟨a, kw ++ b, by simp, (likeMatch_literal_percent kw hw _).mpr ⟨b, rfl⟩⟩

theorem occursB_append_left (kw a b : Str) (h : occursB kw a = true) :
    occursB kw (a ++ b) = true := by
  rw [occursB_iff] at h ⊢
  rcases h with ⟨x, y, rfl⟩
  exact ⟨x, y ++ b, by simp⟩

theorem occursB_append_right (kw a b : Str) (h : occursB kw b = true) :
    occursB kw (a ++ b) = true := by
  rw [occursB_iff] at h ⊢
  rcases h with ⟨x, y, rfl⟩
  exact ⟨a ++ x, y, by simp⟩

theorem startsWithB_sep (kw : Str) (sep : Char) (hsep : ¬ sep ∈ kw) :
    ∀ a b : Str, startsWithB (a ++ sep :: b) kw = true → startsWithB a kw = true := by
  induction kw with
  | nil => intro a b _; cases a <;> simp [startsWithB]
  | cons k ks ih =>
    intro a b h
    cases a with
    | nil =>
      exfalso
      simp only [List.nil_append, startsWithB, Bool.and_eq_true, beq_iff_eq] at h
      exact hsep (by rw [h.1]; exact List.mem_cons_self _ _)
    | cons c a2 =>
      simp only [List.cons_append, startsWithB, Bool.and_eq_true] at h ⊢
      exact ⟨h.1, ih (fun hm => hsep (List.mem_cons_of_mem k hm)) a2 b h.2⟩

theorem suffixes_append_sep (a b : Str) (sep : Char) (s : Str) :
    s ∈ suffixes (a ++ sep :: b) ↔
      (∃ a2, a2 ∈ suffixes a ∧ s = a2 ++ sep :: b) ∨ s ∈ suffixes b := by
  simp only [mem_suffixes]
  constructor
  · rintro ⟨x, hx⟩
    rcases List.append_eq_append_iff.mp hx with ⟨u, hu1, hu2⟩ | ⟨v, hv1, hv2⟩
    · cases u with
      | nil =>
        simp only [List.nil_append] at hu2
        exact Or.inl ⟨[], ⟨a, by simp⟩, hu2.symm⟩
      | cons uh ut =>
        simp only [List.cons_append, List.cons_eq_cons] at hu2
        exact Or.inr ⟨ut, hu2.2⟩
    · exact Or.inl ⟨v, ⟨x, hv1⟩, hv2⟩
  · rintro (⟨a2, ⟨y, hy⟩, rfl⟩ | ⟨z, hz⟩)
    · exact ⟨y, by rw [hy]; simp⟩
    · exact ⟨a ++ sep :: z, by rw [hz]; simp⟩

/-- A word that does not contain the separator character occurs in
`a ++ sep :: b` exactly when it occurs in `a` or in `b`. -/
theorem occursB_append_sep (kw a b : Str) (sep : Char) (hsep : ¬ sep ∈ kw) :
    occursB kw (a ++ sep :: b) = (occursB kw a || occursB kw b) := by
  apply bool_eq_of_iff
  rw [Bool.or_eq_true]
  simp only [occursB, List.any_eq_true]
  constructor
  · rintro ⟨s, hs, hsw⟩
    rcases (suffixes_append_sep a b sep s).mp hs with ⟨a2, ha2, rfl⟩ | hsb
    · exact Or.inl ⟨a2, ha2, startsWithB_sep kw sep hsep a2 b hsw⟩
    · exact Or.inr ⟨s, hsb, hsw⟩
  · rintro (⟨a2, ha2, hsw⟩ | ⟨s, hs, hsw⟩)
    · refine ⟨a2 ++ sep :: b, (suffixes_append_sep a b sep _).mpr (Or.inl ⟨a2, ha2, rfl⟩), ?_⟩
      rcases (startsWithB_iff a2 kw).mp hsw with ⟨r, rfl⟩
      exact (startsWithB_iff _ kw).mpr ⟨r ++ sep :: b, by simp⟩
    · exact ⟨s, (suffixes_append_sep a b sep s).mpr (Or.inr hs), hsw⟩

theorem mem_dedupFirst {α : Type} [DecidableEq α] (l : List α) (x : α) :
    x ∈ dedupFirst l ↔ x ∈ l := by
  induction l with
  | nil => simp [dedupFirst]
  | cons a l ih =>
    simp only [dedupFirst, List.mem_cons, List.mem_filter, ih, decide_eq_true_eq]
    constructor
    · rintro (rfl | ⟨hx, _⟩)
      · exact Or.inl rfl
      · exact Or.inr hx
    · rintro (rfl | hx)
      · exact Or.inl rfl
      · by_cases hxa : x = a
        · exact Or.inl hxa
        · exact Or.inr ⟨hx, hxa⟩

theorem nodup_dedupFirst {α : Type} [DecidableEq α] (l : List α) :
    (dedupFirst l).Nodup := by
  induction l with
  | nil => simp [dedupFirst]
  | cons a l ih =>
    simp only [dedupFirst, List.nodup_cons]
    constructor
    · intro hmem
      rcases List.mem_filter.mp hmem with ⟨_, hne⟩
      simp at hne
    · exact ih.filter _

theorem insertBy_perm {α : Type} (r : α → α → Bool) (a : α) (l : List α) :
    (insertBy r a l).Perm (a :: l) := by
  induction l with
  | nil => simp [insertBy]
  | cons b l ih =>
    simp only [insertBy]
    by_cases h : r a b = true
    · rw [if_pos h]
    · rw [if_neg h]
      exact (ih.cons b).trans (List.Perm.swap a b l)

theorem sortBy_perm {α : Type} (r : α → α → Bool) (l : List α) :
    (sortBy r l).Perm l := by
  induction l with
  | nil => simp [sortBy]
  | cons a l ih =>
    exact (insertBy_perm r a (sortBy r l)).trans (ih.cons a)

theorem mem_sortBy {α : Type} (r : α → α → Bool) (l : List α) (x : α) :
    x ∈ sortBy r l ↔ x ∈ l :=
  (sortBy_perm r l).mem_iff

theorem pairwise_insertBy {α : Type} (r : α → α → Bool)
    (htot : ∀ a b, r a b = true ∨ r b a = true)
    (htrans : ∀ a b c, r a b = true → r b c = true → r a c = true)
    (a : α) (l : List α)
    (hl : l.Pairwise fun x y => r x y = true) :
    (insertBy r a l).Pairwise fun x y => r x y = true := by
  induction l with
  | nil => simp [insertBy]
  | cons b l ih =>
    rcases List.pairwise_cons.mp hl with ⟨hb, hl'⟩
    simp only [insertBy]
    by_cases h : r a b = true
    · rw [if_pos h]
      refine List.pairwise_cons.mpr ⟨fun y hy => ?_, hl⟩
      rcases List.mem_cons.mp hy with rfl | hy
      · exact h
      · exact htrans a b y h (hb y hy)
    · rw [if_neg h]
      refine List.pairwise_cons.mpr ⟨fun y hy => ?_, ih hl'⟩
      rw [(insertBy_perm r a l).mem_iff] at hy
      rcases List.mem_cons.mp hy with heq | hy
      · subst heq
        rcases htot y b with h' | h'
        · exact absurd h' h
        · exact h'
      · exact hb y hy

theorem pairwise_sortBy {α : Type} (r : α → α → Bool)
    (htot : ∀ a b, r a b = true ∨ r b a = true)
    (htrans : ∀ a b c, r a b = true → r b c = true → r a c = true)
    (l : List α) :
    (sortBy r l).Pairwise fun x y => r x y = true := by
  induction l with
  | nil => simp [sortBy]
  | cons a l ih => exact pairwise_insertBy r htot htrans a (sortBy r l) ih

theorem nodup_sortBy {α : Type} (r : α → α → Bool) (l : List α) (h : l.Nodup) :
    (sortBy r l).Nodup :=
  (sortBy_perm r l).symm.nodup h

/-! ## Data model (tables of `database.py`, created in `init_database`) -/

/-! ## Characterisation lemmas for the embedded queries -/

theorem mem_vehicleJoin (st : DBState) (r : VehicleRow) :
    r ∈ vehicleJoin st ↔
      ∃ v ∈ st.vehicles, ∃ c ∈ st.customers,
        c.phone = v.customer_phone ∧ r = { v := v, customer_name := c.name } := by
  simp only [vehicleJoin, List.mem_flatMap, List.mem_map, List.mem_filter, beq_iff_eq]
  constructor
  · rintro ⟨v, hv, c, ⟨hc, hphone⟩, rfl⟩
    exact ⟨v, hv, c, hc, hphone, rfl⟩
  · rintro ⟨v, hv, c, hc, hphone, rfl⟩
    exact ⟨v, hv, c, ⟨hc, hphone⟩, rfl⟩

theorem mem_workOrderJoin (st : DBState) (r : WorkOrderRow) :
    r ∈ workOrderJoin st ↔
      ∃ wo ∈ st.workOrders, ∃ v ∈ st.vehicles, ∃ c ∈ st.customers,
        v.id = wo.vehicle_id ∧ c.phone = v.customer_phone ∧
        r = { wo := wo, license_plate := v.license_plate, brand := v.brand,
              model := v.model, customer_name := c.name, customer_phone := c.phone } := by
  simp only [workOrderJoin, List.mem_flatMap, List.mem_map, List.mem_filter, beq_iff_eq]
  constructor
  · rintro ⟨wo, hwo, v, ⟨hv, hvid⟩, c, ⟨hc, hphone⟩, rfl⟩
    exact ⟨wo, hwo, v, hv, c, hc, hvid, hphone, rfl⟩
  · rintro ⟨wo, hwo, v, hv, c, hc, hvid, hphone, rfl⟩
    exact ⟨wo, hwo, v, ⟨hv, hvid⟩, c, ⟨hc, hphone⟩, rfl⟩

theorem optList_ne_nil {α : Type} (l : List α) : optList l ≠ [] := by
  unfold optList
  by_cases h : l.isEmpty
  · simp [h]
  · rw [if_neg h]
    simp only [ne_eq, List.map_eq_nil_iff]
    exact fun hl => h (by simp [hl])

theorem mem_optList {α : Type} (l : List α) (x : Option α) :
    x ∈ optList l ↔ (l = [] ∧ x = none) ∨ ∃ a ∈ l, x = some a := by
  unfold optList
  by_cases h : l.isEmpty
  · rw [if_pos h, List.isEmpty_iff] at *
    subst h
    simp
  · rw [if_neg h]
    rw [List.isEmpty_iff] at h
    simp only [List.mem_map, h, false_and, false_or]
    constructor
    · rintro ⟨a, ha, rfl⟩; exact ⟨a, ha, rfl⟩
    · rintro ⟨a, ha, rfl⟩; exact ⟨a, ha, rfl⟩

/-- Membership in the shape shared by `search_work_orders` and
`filter_work_orders`. -/
theorem mem_woQuery (st : DBState) (cond : WorkOrderRow → Bool) (r : WorkOrderRow) :
    r ∈ sortBy dateDesc (dedupFirst ((workOrderJoin st).filter cond)) ↔
      r ∈ workOrderJoin st ∧ cond r = true := by
  rw [mem_sortBy, mem_dedupFirst, List.mem_filter]

/-- Distribution of an `∃` over the two LEFT-JOIN factor lists: the base
predicate plus one predicate per factor. Both factor lists are nonempty. -/
theorem exists_pair_or {α β : Type} (S : List α) (P : List β) (hS : S ≠ []) (hP : P ≠ [])
    (x : Prop) (F : α → Prop) (G : β → Prop) :
    (∃ so ∈ S, ∃ po ∈ P, (x ∨ F so ∨ G po)) ↔
      x ∨ (∃ so ∈ S, F so) ∨ (∃ po ∈ P, G po) := by
  constructor
  · rintro ⟨so, hso, po, hpo, (h | h | h)⟩
    · exact Or.inl h
    · exact Or.inr (Or.inl ⟨so, hso, h⟩)
    · exact Or.inr (Or.inr ⟨po, hpo, h⟩)
  · rcases List.exists_mem_of_ne_nil S hS with ⟨s0, hs0⟩
    rcases List.exists_mem_of_ne_nil P hP with ⟨p0, hp0⟩
    rintro (h | ⟨so, hso, h⟩ | ⟨po, hpo, h⟩)
    · exact ⟨s0, hs0, p0, hp0, Or.inl h⟩
    · exact ⟨so, hso, p0, hp0, Or.inr (Or.inl h)⟩
    · exact ⟨s0, hs0, po, hpo, Or.inr (Or.inr h)⟩

theorem toLower_space : Char.toLower ' ' = ' ' := by decide

/-- `LOWER` distributes over the concatenation inside `rowConcat`. -/
theorem rowConcat_eq (so : Option Service) (po : Option SparePart) :
    rowConcat so po =
      low (coalNameS so) ++ ' ' :: (low (coalDescS so) ++ ' ' ::
        (low (coalNameP po) ++ ' ' :: low (coalDescP po))) := by
  simp [rowConcat, low, toLower_space]

/-- A space-free nonempty word occurs in the concatenated row text iff it
occurs in one of the four lowered fields. -/
theorem occursB_rowConcat (kw : Str) (hsp : ¬ ' ' ∈ kw)
    (so : Option Service) (po : Option SparePart) :
    (occursB kw (rowConcat so po) = true) ↔
      occursB kw (low (coalNameS so)) = true ∨ occursB kw (low (coalDescS so)) = true ∨
      occursB kw (low (coalNameP po)) = true ∨ occursB kw (low (coalDescP po)) = true := by
  rw [rowConcat_eq, occursB_append_sep kw _ _ ' ' hsp, occursB_append_sep kw _ _ ' ' hsp,
    occursB_append_sep kw _ _ ' ' hsp]
  simp [Bool.or_eq_true, or_assoc]

/-! ## C1: the derived-total invariant -/

/-- `calculate_work_order_total` leaves the line-item tables untouched, so the
two sums are unchanged by it. -/
theorem calc_services_eq (st : DBState) (w v : Nat) :
    servicesTotal (calculate_work_order_total st w).2 v = servicesTotal st v := rfl

theorem calc_parts_eq (st : DBState) (w v : Nat) :
    partsTotal (calculate_work_order_total st w).2 v = partsTotal st v := rfl

/-- After a recalculation the targeted order's persisted `total_cost` is the
sum of its line items (in the resulting state). -/
theorem calc_establishes (st : DBState) (w : Nat) :
    ∀ wo ∈ (calculate_work_order_total st w).2.workOrders, wo.id = w →
      wo.total_cost =
        servicesTotal (calculate_work_order_total st w).2 w +
        partsTotal (calculate_work_order_total st w).2 w := by
  intro wo hmem hid
  rw [calc_services_eq, calc_parts_eq]
  simp only [calculate_work_order_total, List.mem_map] at hmem
  rcases hmem with ⟨wo0, _, heq⟩
  by_cases h : wo0.id = w
  · rw [if_pos h] at heq
    rw [← heq]
  · rw [if_neg h] at heq
    rw [← heq] at hid
    exact absurd hid h

/-- Every operation ends by recalculating the order it targets, so it leaves
that order's invariant established. -/
theorem applyOp_establishes (st : DBState) (op : Op) :
    ∀ wo ∈ (applyOp st op).workOrders, wo.id = op.target →
      wo.total_cost =
        servicesTotal (applyOp st op) op.target + partsTotal (applyOp st op) op.target := by
  cases op with
  | addService w n d q p => exact calc_establishes _ w
  | addSparePart w n d q p => exact calc_establishes _ w
  | delService sid w => exact calc_establishes _ w
  | delSparePart pid w => exact calc_establishes _ w
  | recalc w => exact calc_establishes _ w

theorem applyOps_append_singleton (ops : List Op) (op : Op) (st : DBState) :
    applyOps (ops ++ [op]) st = applyOp (applyOps ops st) op := by
  simp [applyOps, List.foldl_append]

/-- C1. For every work order, after any nonempty sequence of line-item
operations targeting it, the persisted `total_cost` equals the sum of
`quantity * price` over its services plus the same sum over its spare parts,
and `calculate_work_order_total` returns exactly that value. -/
theorem work_order_total_invariant (st : DBState) (ops : List Op) (w : Nat)
    (hne : ops ≠ []) (ht : ∀ op ∈ ops, op.target = w) :
    (∀ wo ∈ (applyOps ops st).workOrders, wo.id = w →
        wo.total_cost = servicesTotal (applyOps ops st) w + partsTotal (applyOps ops st) w) ∧
    (calculate_work_order_total (applyOps ops st) w).1 =
      servicesTotal (applyOps ops st) w + partsTotal (applyOps ops st) w := by
  refine ⟨?_, rfl⟩
  induction ops using List.reverseRecOn with
  | nil => exact absurd rfl hne
  | append_singleton L op _ =>
    have htgt : op.target = w := ht op (List.mem_append_right L (List.mem_singleton_self op))
    rw [applyOps_append_singleton]
    rw [← htgt]
    exact applyOp_establishes (applyOps L st) op

theorem work_order_total_invariant_witness :
    (opsC1 ≠ [] ∧ ∀ op ∈ opsC1, op.target = 1) ∧
    ((∀ wo ∈ (applyOps opsC1 stC1).workOrders, wo.id = 1 →
        wo.total_cost =
          servicesTotal (applyOps opsC1 stC1) 1 + partsTotal (applyOps opsC1 stC1) 1) ∧
      (calculate_work_order_total (applyOps opsC1 stC1) 1).1 =
        servicesTotal (applyOps opsC1 stC1) 1 + partsTotal (applyOps opsC1 stC1) 1) :=
  ⟨⟨by decide, by decide⟩,
   work_order_total_invariant stC1 opsC1 1 (by decide) (by decide)⟩

theorem lexLe_total (x y : Str) : lexLe x y = true ∨ lexLe y x = true := by
  induction x generalizing y with
  | nil => left; simp [lexLe]
  | cons a as ih =>
    cases y with
    | nil => right; simp [lexLe]
    | cons b bs =>
      by_cases hab : a.toNat = b.toNat
      · rcases ih bs with h | h
        · left; simp [lexLe, hab, h]
        · right; simp [lexLe, hab.symm, h]
      · have hba : ¬ b.toNat = a.toNat := fun hh => hab hh.symm
        rcases Nat.lt_or_ge a.toNat b.toNat with hlt | hge
        · left; simp [lexLe, hab, hlt]
        · right
          have hlt : b.toNat < a.toNat := Nat.lt_of_le_of_ne hge hba
          simp [lexLe, hba, hlt]

theorem lexLe_trans (x y z : Str) (hxy : lexLe x y = true) (hyz : lexLe y z = true) :
    lexLe x z = true := by
  induction x generalizing y z with
  | nil => simp [lexLe]
  | cons a as ih =>
    cases y with
    | nil => simp [lexLe] at hxy
    | cons b bs =>
      cases z with
      | nil => simp [lexLe] at hyz
      | cons c cs =>
        by_cases hab : a.toNat = b.toNat
        · by_cases hbc : b.toNat = c.toNat
          · have hac : a.toNat = c.toNat := hab.trans hbc
            simp only [lexLe, if_pos hab] at hxy
            simp only [lexLe, if_pos hbc] at hyz
            simp only [lexLe, if_pos hac]
            exact ih bs cs hxy hyz
          · simp only [lexLe, if_neg hbc, decide_eq_true_eq] at hyz
            have hac : ¬ a.toNat = c.toNat := by omega
            simp only [lexLe, if_neg hac, decide_eq_true_eq]
            omega
        · simp only [lexLe, if_neg hab, decide_eq_true_eq] at hxy
          by_cases hbc : b.toNat = c.toNat
          · have hac : ¬ a.toNat = c.toNat := by omega
            simp only [lexLe, if_neg hac, decide_eq_true_eq]
            omega
          · simp only [lexLe, if_neg hbc, decide_eq_true_eq] at hyz
            have hac : ¬ a.toNat = c.toNat := by omega
            simp only [lexLe, if_neg hac, decide_eq_true_eq]
            omega

theorem lexLe_antisymm (x y : Str) (hxy : lexLe x y = true) (hyx : lexLe y x = true) :
    x = y := by
  induction x generalizing y with
  | nil =>
    cases y with
    | nil => rfl
    | cons b bs => simp [lexLe] at hyx
  | cons a as ih =>
    cases y with
    | nil => simp [lexLe] at hxy
    | cons b bs =>
      by_cases hab : a.toNat = b.toNat
      · have hba : b.toNat = a.toNat := hab.symm
        simp only [lexLe, if_pos hab] at hxy
        simp only [lexLe, if_pos hba] at hyx
        have h1 : a = b := by rw [← Char.ofNat_toNat a, hab, Char.ofNat_toNat]
        rw [h1, ih bs hxy hyx]
      · have hba : ¬ b.toNat = a.toNat := fun h => hab h.symm
        simp only [lexLe, if_neg hab, decide_eq_true_eq] at hxy
        simp only [lexLe, if_neg hba, decide_eq_true_eq] at hyx
        omega

/-! ## C6: inner joins exclude orphans -/

theorem vehicleJoin_parent (st : DBState) (r : VehicleRow) (h : r ∈ vehicleJoin st) :
    ∃ c ∈ st.customers, c.phone = r.v.customer_phone := by
  rcases (mem_vehicleJoin st r).mp h with ⟨v, _, c, hc, hph, rfl⟩
  exact ⟨c, hc, hph⟩

theorem workOrderJoin_parent (st : DBState) (r : WorkOrderRow) (h : r ∈ workOrderJoin st) :
    ∃ v ∈ st.vehicles, v.id = r.wo.vehicle_id ∧
      ∃ c ∈ st.customers, c.phone = v.customer_phone := by
  rcases (mem_workOrderJoin st r).mp h with ⟨wo, _, v, hv, c, hc, hvid, hph, rfl⟩
  exact ⟨v, hv, hvid, c, hc, hph⟩

/-- C6. The vehicle listings never return a vehicle whose `customer_phone`
has no matching customer, and the work-order listings never return a work
order whose vehicle (or its customer) is missing. -/
theorem inner_join_excludes_orphans (st : DBState) :
    (∀ r ∈ get_vehicles st, ∃ c ∈ st.customers, c.phone = r.v.customer_phone) ∧
    (∀ term : String, ∀ r ∈ search_vehicles term st,
      ∃ c ∈ st.customers, c.phone = r.v.customer_phone) ∧
    (∀ r ∈ get_work_orders st, ∃ v ∈ st.vehicles, v.id = r.wo.vehicle_id ∧
      ∃ c ∈ st.customers, c.phone = v.customer_phone) ∧
    (∀ kw : String, ∀ r ∈ search_work_orders kw st,
      ∃ v ∈ st.vehicles, v.id = r.wo.vehicle_id ∧
        ∃ c ∈ st.customers, c.phone = v.customer_phone) ∧
    (∀ kw : String, ∀ ty : Option String, ∀ r ∈ filter_work_orders kw ty st,
      ∃ v ∈ st.vehicles, v.id = r.wo.vehicle_id ∧
        ∃ c ∈ st.customers, c.phone = v.customer_phone) := by
  refine ⟨fun r h => ?_, fun term r h => ?_, fun r h => ?_, fun kw r h => ?_,
    fun kw ty r h => ?_⟩
  · exact vehicleJoin_parent st r ((mem_sortBy _ _ r).mp h)
  · exact vehicleJoin_parent st r (List.mem_filter.mp ((mem_sortBy _ _ r).mp h)).1
  · exact workOrderJoin_parent st r ((mem_sortBy _ _ r).mp h)
  · exact workOrderJoin_parent st r ((mem_woQuery st _ r).mp h).1
  · exact workOrderJoin_parent st r ((mem_woQuery st _ r).mp h).1

theorem inner_join_excludes_orphans_witness :
    rowVJoin ∈ get_vehicles stJoin ∧
      ∃ c ∈ stJoin.customers, c.phone = rowVJoin.v.customer_phone :=
  ⟨by decide, (inner_join_excludes_orphans stJoin).1 rowVJoin (by decide)⟩

/-! ## C7 and C8: invoice creation -/

theorem applyOp_invoices (st : DBState) (op : Op) : (applyOp st op).invoices = st.invoices := by
  cases op <;> rfl

theorem applyOps_invoices (ops : List Op) (st : DBState) :
    (applyOps ops st).invoices = st.invoices := by
  induction ops generalizing st with
  | nil => rfl
  | cons op ops ih =>
    show (applyOps ops (applyOp st op)).invoices = st.invoices
    rw [ih (applyOp st op), applyOp_invoices]

/-- C7. A created invoice snapshots the order's current `total_cost`, starts
`Unpaid` and is dated `today`; no later line-item operation or recalculation
(all the operations that rewrite `total_cost`) changes the stored invoices. -/
theorem create_invoice_snapshot (st : DBState) (today : String) (w : Nat)
    (row : WorkOrderRow) (h : get_work_order_details st w = some row) :
    (create_invoice today st w).1 = Except.ok st.nextInvoiceId ∧
    (create_invoice today st w).2.invoices =
      st.invoices ++
        [{ id := st.nextInvoiceId, work_order_id := w, invoice_date := today,
           total_amount := row.wo.total_cost, status := "Unpaid" }] ∧
    ∀ ops : List Op,
      (applyOps ops (create_invoice today st w).2).invoices =
        (create_invoice today st w).2.invoices := by
  refine ⟨?_, ?_, fun ops => applyOps_invoices ops _⟩ <;> simp [create_invoice, h]

theorem create_invoice_snapshot_witness :
    get_work_order_details stJoin 1 = some rowJoin ∧
    (create_invoice "2024-02-02" stJoin 1).1 = Except.ok 1 :=
  ⟨by decide,
   (create_invoice_snapshot stJoin "2024-02-02" 1 rowJoin (by decide)).1⟩

/-- C8. `create_invoice` fails with the explicit domain error exactly when the
inner-joined detail lookup finds nothing — in which case the state (hence the
invoice table) is unchanged — and succeeds with the fresh id exactly when the
order, its vehicle and that vehicle's customer all exist. -/
theorem create_invoice_requires_work_order (st : DBState) (today : String) (w : Nat) :
    ((create_invoice today st w).1 = Except.error "Work order not found" ↔
      get_work_order_details st w = none) ∧
    (get_work_order_details st w = none → (create_invoice today st w).2 = st) ∧
    ((∃ n, (create_invoice today st w).1 = Except.ok n) ↔
      ¬ get_work_order_details st w = none) ∧
    (¬ get_work_order_details st w = none ↔
      ∃ wo ∈ st.workOrders, wo.id = w ∧ ∃ v ∈ st.vehicles, v.id = wo.vehicle_id ∧
        ∃ c ∈ st.customers, c.phone = v.customer_phone) := by
  have hchar : ¬ get_work_order_details st w = none ↔
      ∃ wo ∈ st.workOrders, wo.id = w ∧ ∃ v ∈ st.vehicles, v.id = wo.vehicle_id ∧
        ∃ c ∈ st.customers, c.phone = v.customer_phone := by
    unfold get_work_order_details
    constructor
    · intro hne
      have hfil : ((workOrderJoin st).filter fun x => x.wo.id == w) ≠ [] := by
        intro hnil
        exact hne (by rw [hnil]; rfl)
      rcases List.exists_mem_of_ne_nil _ hfil with ⟨r, hr⟩
      rcases List.mem_filter.mp hr with ⟨hj, hid⟩
      rcases (mem_workOrderJoin st r).mp hj with ⟨wo, hwo, v, hv, c, hc, hvid, hph, rfl⟩
      refine ⟨wo, hwo, ?_, v, hv, hvid, c, hc, hph⟩
      simpa using hid
    · rintro ⟨wo, hwo, hid, v, hv, hvid, c, hc, hph⟩
      intro hnone
      rw [List.head?_eq_none_iff] at hnone
      have hmem : mkRow wo v c ∈ workOrderJoin st :=
        (mem_workOrderJoin st _).mpr ⟨wo, hwo, v, hv, c, hc, hvid, hph, rfl⟩
      have hmem2 : mkRow wo v c ∈ (workOrderJoin st).filter (fun x => x.wo.id == w) :=
        List.mem_filter.mpr ⟨hmem, by simp [mkRow, hid]⟩
      rw [hnone] at hmem2
      exact absurd hmem2 (List.not_mem_nil _)
  refine ⟨?_, ?_, ?_, hchar⟩
  · cases hd : get_work_order_details st w <;> simp [create_invoice, hd]
  · intro hd; simp [create_invoice, hd]
  · cases hd : get_work_order_details st w <;> simp [create_invoice, hd]

theorem create_invoice_requires_work_order_witness :
    get_work_order_details stEmpty 1 = none ∧
      (create_invoice "2024-02-02" stEmpty 1).2 = stEmpty :=
  ⟨by decide,
   (create_invoice_requires_work_order stEmpty "2024-02-02" 1).2.1 (by decide)⟩

/-- C9. Over the template operations as written in the source (they are dead
code at runtime — nested inside `set_setting` after its `return` — so the
running class never exposes them): the toggle flips `is_active` (`1 -
is_active`) in place without deleting or otherwise changing any row, and the
active-only listings return exactly the templates with `is_active = 1`. -/
theorem template_soft_deactivation (st : DBState) (tid : Nat) :
    ((toggle_service_template_status st tid).serviceTemplates.length =
      st.serviceTemplates.length) ∧
    (∀ t ∈ st.serviceTemplates,
      (¬ t.id = tid → t ∈ (toggle_service_template_status st tid).serviceTemplates) ∧
      (t.id = tid →
        { t with is_active := 1 - t.is_active } ∈
          (toggle_service_template_status st tid).serviceTemplates)) ∧
    (∀ t, t ∈ get_service_templates true st ↔ t ∈ st.serviceTemplates ∧ t.is_active = 1) ∧
    ((toggle_spare_part_template_status st tid).sparePartTemplates.length =
      st.sparePartTemplates.length) ∧
    (∀ t ∈ st.sparePartTemplates,
      (¬ t.id = tid → t ∈ (toggle_spare_part_template_status st tid).sparePartTemplates) ∧
      (t.id = tid →
        { t with is_active := 1 - t.is_active } ∈
          (toggle_spare_part_template_status st tid).sparePartTemplates)) ∧
    (∀ t, t ∈ get_spare_part_templates true st ↔
      t ∈ st.sparePartTemplates ∧ t.is_active = 1) := by
  refine ⟨by simp [toggle_service_template_status], fun t ht => ⟨fun hne => ?_, fun heq => ?_⟩,
    fun t => ?_, by simp [toggle_spare_part_template_status],
    fun t ht => ⟨fun hne => ?_, fun heq => ?_⟩, fun t => ?_⟩
  · exact List.mem_map.mpr ⟨t, ht, by rw [if_neg hne]⟩
  · exact List.mem_map.mpr ⟨t, ht, by rw [if_pos heq]⟩
  · rw [get_service_templates, if_pos rfl, mem_sortBy, List.mem_filter]
    simp
  · exact List.mem_map.mpr ⟨t, ht, by rw [if_neg hne]⟩
  · exact List.mem_map.mpr ⟨t, ht, by rw [if_pos heq]⟩
  · rw [get_spare_part_templates, if_pos rfl, mem_sortBy, List.mem_filter]
    simp

/-- C10. `get_repair_statistics` applies its date range only when both bounds
are truthy: with exactly one bound supplied the result is identical to the
unbounded call. -/
theorem repair_statistics_requires_both_bounds (s e : Option String) (st : DBState)
    (h : ¬ truthy s = truthy e) :
    get_repair_statistics s e st = get_repair_statistics none none st := by
  have hse : (truthy s && truthy e) = false := by
    cases hs : truthy s <;> cases he : truthy e <;> simp_all
  have hf : ∀ s2 e2 : Option String, (truthy s2 && truthy e2) = false →
      dateFilteredOrders s2 e2 st = st.workOrders := by
    intro s2 e2 hse2
    unfold dateFilteredOrders
    rw [hse2]
    simp
  simp only [get_repair_statistics, hf s e hse, hf none none rfl]

theorem repair_statistics_requires_both_bounds_witness :
    ¬ truthy (some "2024-01-01") = truthy none ∧
    get_repair_statistics (some "2024-01-01") none stJoin =
      get_repair_statistics none none stJoin :=
  ⟨by decide, repair_statistics_requires_both_bounds (some "2024-01-01") none stJoin (by decide)⟩

theorem occursB_nil_left (t : Str) : occursB [] t = true := by
  cases t <;> simp [occursB, suffixes, startsWithB]

theorem likeMatch_pctPat (kw : Str) (hw : noWild kw) (t : Str) :
    likeMatch (pctPat kw) t = occursB kw t :=
  likeMatch_contains kw hw t

theorem occursB_nil_right (kw : Str) (h : ¬ kw = []) : occursB kw [] = false := by
  cases kw with
  | nil => exact absurd rfl h
  | cons c cs => simp [occursB, suffixes, startsWithB]

theorem exists_optList_iff {α : Type} (L : List α) (F : Option α → Prop)
    (hnone : ¬ F none) : (∃ so ∈ optList L, F so) ↔ ∃ a ∈ L, F (some a) := by
  constructor
  · rintro ⟨so, hso, hF⟩
    rcases (mem_optList L so).mp hso with ⟨_, rfl⟩ | ⟨a, ha, rfl⟩
    · exact absurd hF hnone
    · exact ⟨a, ha, hF⟩
  · rintro ⟨a, ha, hF⟩
    exact ⟨some a, (mem_optList L (some a)).mpr (Or.inr ⟨a, ha, rfl⟩), hF⟩

/-- The LEFT-JOIN/`DISTINCT` search condition of one base row is equivalent to
the spec's per-entity formulation. -/
theorem searchCond_any_iff (st : DBState) (kw : String) (hw : noWild (low kw))
    (r : WorkOrderRow) :
    (((servOpts st r.wo.id).any fun so =>
        (partOpts st r.wo.id).any fun po => searchCond (low kw) r so po) = true) ↔
      searchMatches kw st r := by
  by_cases hnil : low kw = []
  · constructor
    · intro _
      exact Or.inl (by unfold ciContains; rw [hnil]; exact occursB_nil_left _)
    · intro _
      rcases List.exists_mem_of_ne_nil _ (optList_ne_nil
        (st.services.filter fun s => s.work_order_id == r.wo.id)) with ⟨so, hso⟩
      rcases List.exists_mem_of_ne_nil _ (optList_ne_nil
        (st.spareParts.filter fun p => p.work_order_id == r.wo.id)) with ⟨po, hpo⟩
      refine List.any_eq_true.mpr ⟨so, hso, List.any_eq_true.mpr ⟨po, hpo, ?_⟩⟩
      unfold searchCond
      rw [likeMatch_pctPat _ hw, hnil, occursB_nil_left]
      simp
  · have step1 : (((servOpts st r.wo.id).any fun so =>
        (partOpts st r.wo.id).any fun po => searchCond (low kw) r so po) = true) ↔
        ∃ so ∈ servOpts st r.wo.id, ∃ po ∈ partOpts st r.wo.id,
          (occursB (low kw) (low r.customer_name) = true ∨
            (occursB (low kw) (low (coalDescS so)) = true ∨
              occursB (low kw) (low (coalNameS so)) = true) ∨
            (occursB (low kw) (low (coalDescP po)) = true ∨
              occursB (low kw) (low (coalNameP po)) = true)) := by
      simp only [List.any_eq_true, searchCond, likeMatch_pctPat _ hw, Bool.or_eq_true,
        or_assoc]
    rw [step1, exists_pair_or (servOpts st r.wo.id) (partOpts st r.wo.id)
      (show servOpts st r.wo.id ≠ [] from optList_ne_nil _)
      (show partOpts st r.wo.id ≠ [] from optList_ne_nil _)
      (occursB (low kw) (low r.customer_name) = true)
      (fun so => occursB (low kw) (low (coalDescS so)) = true ∨
        occursB (low kw) (low (coalNameS so)) = true)
      (fun po => occursB (low kw) (low (coalDescP po)) = true ∨
        occursB (low kw) (low (coalNameP po)) = true)]
    unfold searchMatches ciContains
    have hserv : (∃ so ∈ servOpts st r.wo.id,
        occursB (low kw) (low (coalDescS so)) = true ∨
          occursB (low kw) (low (coalNameS so)) = true) ↔
        ∃ s ∈ st.services, s.work_order_id = r.wo.id ∧
          (occursB (low kw) (low s.name) = true ∨
            occursB (low kw) (low s.description) = true) := by
      unfold servOpts
      rw [exists_optList_iff _ _ (by
        simp only [coalDescS, coalNameS, low]
        show ¬ (occursB (low kw) [] = true ∨ occursB (low kw) [] = true)
        rw [occursB_nil_right _ hnil]
        simp)]
      constructor
      · rintro ⟨s, hs, h⟩
        rcases List.mem_filter.mp hs with ⟨hs2, hid⟩
        exact ⟨s, hs2, by simpa using hid,
          by simpa [coalDescS, coalNameS, or_comm] using h⟩
      · rintro ⟨s, hs, hid, h⟩
        exact ⟨s, List.mem_filter.mpr ⟨hs, by simpa using hid⟩,
          by simpa [coalDescS, coalNameS, or_comm] using h⟩
    have hpart : (∃ po ∈ partOpts st r.wo.id,
        occursB (low kw) (low (coalDescP po)) = true ∨
          occursB (low kw) (low (coalNameP po)) = true) ↔
        ∃ p ∈ st.spareParts, p.work_order_id = r.wo.id ∧
          (occursB (low kw) (low p.name) = true ∨
            occursB (low kw) (low p.description) = true) := by
      unfold partOpts
      rw [exists_optList_iff _ _ (by
        simp only [coalDescP, coalNameP, low]
        show ¬ (occursB (low kw) [] = true ∨ occursB (low kw) [] = true)
        rw [occursB_nil_right _ hnil]
        simp)]
      constructor
      · rintro ⟨p, hp, h⟩
        rcases List.mem_filter.mp hp with ⟨hp2, hid⟩
        exact ⟨p, hp2, by simpa using hid,
          by simpa [coalDescP, coalNameP, or_comm] using h⟩
      · rintro ⟨p, hp, hid, h⟩
        exact ⟨p, List.mem_filter.mpr ⟨hp, by simpa using hid⟩,
          by simpa [coalDescP, coalNameP, or_comm] using h⟩
    rw [hserv, hpart]

/-! ### Lemmas about the list machinery -/


/-- With unique vehicle ids and unique customer phones (the schema's PRIMARY
KEY and UNIQUE constraints), a joined row is determined by its work order. -/
theorem workOrderJoin_wo_inj (st : DBState)
    (hv : (st.vehicles.map Vehicle.id).Nodup)
    (hc : (st.customers.map Customer.phone).Nodup) :
    ∀ r1 ∈ workOrderJoin st, ∀ r2 ∈ workOrderJoin st, r1.wo = r2.wo → r1 = r2 := by
  intro r1 h1 r2 h2 heq
  rcases (mem_workOrderJoin st r1).mp h1 with ⟨wo1, hwo1, v1, hv1, c1, hc1, hvid1, hph1, rfl⟩
  rcases (mem_workOrderJoin st r2).mp h2 with ⟨wo2, hwo2, v2, hv2, c2, hc2, hvid2, hph2, rfl⟩
  have hwo : wo1 = wo2 := heq
  have hvv : v1 = v2 :=
    List.inj_on_of_nodup_map hv hv1 hv2 (by rw [hvid1, hvid2, hwo])
  have hcc : c1 = c2 :=
    List.inj_on_of_nodup_map hc hc1 hc2 (by rw [hph1, hph2, hvv])
  rw [hwo, hvv, hcc]

/-- C2 (amended: for keywords free of the SQL LIKE wildcards `%` and `_`).
Under the schema's uniqueness constraints, `search_work_orders` returns each
work order at most once, and returns exactly the joined rows whose customer
name or some owned service's or spare part's name or description contains the
keyword as a case-insensitive substring — in particular an order with zero
line items is returned when its customer's name matches. -/
theorem search_work_orders_correct (st : DBState) (kw : String)
    (hw : noWild (low kw))
    (hv : (st.vehicles.map Vehicle.id).Nodup)
    (hc : (st.customers.map Customer.phone).Nodup) :
    ((search_work_orders kw st).map (fun r => r.wo)).Nodup ∧
    ∀ r : WorkOrderRow, r ∈ search_work_orders kw st ↔
      r ∈ workOrderJoin st ∧ searchMatches kw st r := by
  have hmem : ∀ r : WorkOrderRow, r ∈ search_work_orders kw st ↔
      r ∈ workOrderJoin st ∧ searchMatches kw st r := by
    intro r
    rw [search_work_orders, mem_woQuery]
    exact and_congr_right fun _ => searchCond_any_iff st kw hw r
  refine ⟨?_, hmem⟩
  apply List.Nodup.map_on
  · intro x hx y hy hxy
    exact workOrderJoin_wo_inj st hv hc x ((hmem x).mp hx).1 y ((hmem y).mp hy).1 hxy
  · exact nodup_sortBy _ _ (nodup_dedupFirst _)

/-- C2 counterexample: the claim as stated quantifies over every keyword, but
a keyword containing a LIKE wildcard is interpolated into the pattern: the
search for `"%"` returns `stJoin`'s order although no stored text contains
`"%"` as a substring. -/
theorem search_wildcard_counterexample :
    rowJoin ∈ search_work_orders "%" stJoin ∧ ¬ searchMatches "%" stJoin rowJoin :=
  ⟨by decide, by decide⟩

theorem search_work_orders_correct_witness :
    noWild (low "bo") ∧
    ((search_work_orders "bo" stJoin).map (fun r => r.wo)).Nodup ∧
    (rowJoin ∈ search_work_orders "bo" stJoin ↔
      rowJoin ∈ workOrderJoin stJoin ∧ searchMatches "bo" stJoin rowJoin) :=
  ⟨by decide,
   (search_work_orders_correct stJoin "bo" (by decide) (by decide) (by decide)).1,
   (search_work_orders_correct stJoin "bo" (by decide) (by decide) (by decide)).2 rowJoin⟩

/-- A space-free nonempty word occurs in the space-joined lowered fields iff
it occurs in one of the lowered fields. -/
theorem occursB_joinSpaceLow (kw : Str) (hsp : ¬ ' ' ∈ kw) (hne : ¬ kw = []) :
    ∀ fields : List String,
      (occursB kw (joinSpaceLow fields) = true ↔ ∃ f ∈ fields, occursB kw (low f) = true) := by
  intro fields
  induction fields with
  | nil =>
    rw [show joinSpaceLow [] = [] from rfl, occursB_nil_right _ hne]
    simp
  | cons f fs ih =>
    cases fs with
    | nil =>
      rw [show joinSpaceLow [f] = low f from rfl]
      simp
    | cons g fs2 =>
      rw [show joinSpaceLow (f :: g :: fs2) = low f ++ ' ' :: joinSpaceLow (g :: fs2) from rfl]
      have hsep := occursB_append_sep kw (low f) (joinSpaceLow (g :: fs2)) ' ' hsp
      rw [hsep]
      simp only [Bool.or_eq_true, ih, List.mem_cons]
      constructor
      · rintro (h | ⟨f2, hf2, h⟩)
        · exact ⟨f, Or.inl rfl, h⟩
        · exact ⟨f2, Or.inr hf2, h⟩
      · rintro ⟨f2, hf2 | hf2, h⟩
        · exact Or.inl (hf2 ▸ h)
        · exact Or.inr ⟨f2, hf2, h⟩

/-- The per-row service-type condition, taken over all LEFT-JOIN rows of one
work order, is the claim's bucket predicate over the concatenated line-item
text. -/
theorem typeCond_any_iff (st : DBState) (kws : List String)
    (hfacts : ∀ w ∈ kws, noWild w.data ∧ ¬ ' ' ∈ w.data ∧ ¬ w.data = [] ∧ low w = w.data)
    (woId : Nat) :
    (((servOpts st woId).any fun so =>
        (partOpts st woId).any fun po => typeCond kws so po) = true) ↔
      bucketMatches kws st woId := by
  constructor
  · intro h
    rcases List.any_eq_true.mp h with ⟨so, hso, h2⟩
    rcases List.any_eq_true.mp h2 with ⟨po, hpo, h3⟩
    rcases List.any_eq_true.mp h3 with ⟨w, hwk, hlike⟩
    obtain ⟨hnw, hnsp, hnne, hlw⟩ := hfacts w hwk
    rw [likeMatch_pctPat _ hnw] at hlike
    refine ⟨w, hwk, ?_⟩
    rw [hlw, occursB_joinSpaceLow _ hnsp hnne]
    rcases (occursB_rowConcat w.data hnsp so po).mp hlike with h4 | h4 | h4 | h4
    · rcases (mem_optList _ so).mp hso with ⟨_, rfl⟩ | ⟨s, hs, rfl⟩
      · rw [show low (coalNameS none) = [] from rfl, occursB_nil_right _ hnne] at h4
        exact absurd h4 (by simp)
      · exact ⟨s.name, List.mem_append_left _
          (List.mem_flatMap.mpr ⟨s, hs, by simp⟩), h4⟩
    · rcases (mem_optList _ so).mp hso with ⟨_, rfl⟩ | ⟨s, hs, rfl⟩
      · rw [show low (coalDescS none) = [] from rfl, occursB_nil_right _ hnne] at h4
        exact absurd h4 (by simp)
      · exact ⟨s.description, List.mem_append_left _
          (List.mem_flatMap.mpr ⟨s, hs, by simp⟩), h4⟩
    · rcases (mem_optList _ po).mp hpo with ⟨_, rfl⟩ | ⟨p, hp, rfl⟩
      · rw [show low (coalNameP none) = [] from rfl, occursB_nil_right _ hnne] at h4
        exact absurd h4 (by simp)
      · exact ⟨p.name, List.mem_append_right _
          (List.mem_flatMap.mpr ⟨p, hp, by simp⟩), h4⟩
    · rcases (mem_optList _ po).mp hpo with ⟨_, rfl⟩ | ⟨p, hp, rfl⟩
      · rw [show low (coalDescP none) = [] from rfl, occursB_nil_right _ hnne] at h4
        exact absurd h4 (by simp)
      · exact ⟨p.description, List.mem_append_right _
          (List.mem_flatMap.mpr ⟨p, hp, by simp⟩), h4⟩
  · rintro ⟨w, hwk, hocc⟩
    obtain ⟨hnw, hnsp, hnne, hlw⟩ := hfacts w hwk
    rw [hlw, occursB_joinSpaceLow _ hnsp hnne] at hocc
    rcases hocc with ⟨f, hf, hocc⟩
    rcases List.mem_append.mp hf with hf | hf
    · rcases List.mem_flatMap.mp hf with ⟨s, hs, hfs⟩
      rcases List.exists_mem_of_ne_nil _
        (show partOpts st woId ≠ [] from optList_ne_nil _) with ⟨po, hpo⟩
      refine List.any_eq_true.mpr ⟨some s, (mem_optList _ _).mpr (Or.inr ⟨s, hs, rfl⟩),
        List.any_eq_true.mpr ⟨po, hpo, List.any_eq_true.mpr ⟨w, hwk, ?_⟩⟩⟩
      rw [likeMatch_pctPat _ hnw]
      apply (occursB_rowConcat w.data hnsp _ _).mpr
      rcases (show f = s.name ∨ f = s.description by simpa using hfs) with rfl | rfl
      · exact Or.inl hocc
      · exact Or.inr (Or.inl hocc)
    · rcases List.mem_flatMap.mp hf with ⟨p, hp, hfp⟩
      rcases List.exists_mem_of_ne_nil _
        (show servOpts st woId ≠ [] from optList_ne_nil _) with ⟨so, hso⟩
      refine List.any_eq_true.mpr ⟨so, hso,
        List.any_eq_true.mpr ⟨some p, (mem_optList _ _).mpr (Or.inr ⟨p, hp, rfl⟩),
          List.any_eq_true.mpr ⟨w, hwk, ?_⟩⟩⟩
      rw [likeMatch_pctPat _ hnw]
      apply (occursB_rowConcat w.data hnsp _ _).mpr
      rcases (show f = p.name ∨ f = p.description by simpa using hfp) with rfl | rfl
      · exact Or.inr (Or.inr (Or.inl hocc))
      · exact Or.inr (Or.inr (Or.inr hocc))

/-- The membership characterisation of `filter_work_orders` with an empty
keyword and a recognised service type. -/
theorem filter_type_mem (st : DBState) (ty : String) (kws : List String)
    (hb : bucketOf (normType (some ty)) = some kws)
    (hfacts : ∀ w ∈ kws, noWild w.data ∧ ¬ ' ' ∈ w.data ∧ ¬ w.data = [] ∧ low w = w.data)
    (r : WorkOrderRow) :
    r ∈ filter_work_orders "" (some ty) st ↔
      r ∈ workOrderJoin st ∧ bucketMatches kws st r.wo.id := by
  rw [filter_work_orders, mem_woQuery]
  refine and_congr_right fun _ => ?_
  have hcond : ∀ so po, filterLineCond (normKeyword "") (normType (some ty)) r so po =
      typeCond kws so po := by
    intro so po
    rw [filterLineCond, hb]
    rw [show normKeyword "" = [] from rfl]
    simp
  simp only [hcond]
  exact typeCond_any_iff st kws hfacts r.wo.id

/-- C3. For each of the three service-type buckets with its fixed keyword
list, `filter_work_orders` (empty keyword) returns exactly the joined work
orders for which some bucket keyword occurs case-insensitively in the
concatenation of all the order's line-item names and descriptions. -/
theorem filter_service_type_correct (st : DBState) (ty : String) (kws : List String)
    (hty : (ty, kws) ∈ bucketPairs) (r : WorkOrderRow) :
    r ∈ filter_work_orders "" (some ty) st ↔
      r ∈ workOrderJoin st ∧ bucketMatches kws st r.wo.id := by
  have h3 : (ty = "Preventive" ∧ kws = preventiveKeywords) ∨
      (ty = "Corrective" ∧ kws = correctiveKeywords) ∨
      (ty = "Inspection" ∧ kws = inspectionKeywords) := by
    simpa [bucketPairs, Prod.ext_iff] using hty
  rcases h3 with ⟨rfl, rfl⟩ | ⟨rfl, rfl⟩ | ⟨rfl, rfl⟩
  · exact filter_type_mem st _ _ (by decide) (by decide) r
  · exact filter_type_mem st _ _ (by decide) (by decide) r
  · exact filter_type_mem st _ _ (by decide) (by decide) r

theorem filter_service_type_correct_witness :
    ("Preventive", preventiveKeywords) ∈ bucketPairs ∧
    (rowOil ∈ filter_work_orders "" (some "Preventive") stOil ↔
      rowOil ∈ workOrderJoin stOil ∧ bucketMatches preventiveKeywords stOil rowOil.wo.id) ∧
    rowOil ∈ filter_work_orders "" (some "Preventive") stOil ∧
    ¬ rowOil ∈ filter_work_orders "" (some "Preventive") stTrans ∧
    rowOil ∈ filter_work_orders "" (some "Corrective") stTrans :=
  ⟨by decide,
   filter_service_type_correct stOil "Preventive" preventiveKeywords (by decide) rowOil,
   by decide, by decide, by decide⟩

theorem dateDesc_total (a b : WorkOrderRow) : dateDesc a b = true ∨ dateDesc b a = true :=
  (lexLe_total b.wo.entry_date.data a.wo.entry_date.data).imp id id

theorem dateDesc_trans (a b c : WorkOrderRow) (h1 : dateDesc a b = true)
    (h2 : dateDesc b c = true) : dateDesc a c = true :=
  lexLe_trans c.wo.entry_date.data b.wo.entry_date.data a.wo.entry_date.data h2 h1

/-- C4 (amended). The status filter is an exact-match post-filter and hence a
true intersection; supplying no filter at all returns the full joined listing,
ordered by entry date descending; a supplied keyword-plus-type combination is
bounded above by the two individual filters; but the combination holds exactly
when a single joined `(service?, part?)` row satisfies both conditions at
once, which can be strictly stronger than the order-level AND of the two
filters. -/
theorem filter_composition (st : DBState) :
    (∀ kw ty r, r ∈ filter_work_orders kw (some ty) st →
        r ∈ filter_work_orders kw none st ∧ r ∈ filter_work_orders "" (some ty) st) ∧
    (∀ statusF : String, ∀ l : List WorkOrderRow, ∀ r,
        r ∈ statusPostFilter statusF l ↔ r ∈ l ∧ r.wo.status = statusF) ∧
    ((get_work_orders st).Perm (workOrderJoin st) ∧
      (get_work_orders st).Pairwise fun a b => dateDesc a b = true) ∧
    (∀ r, r ∈ filter_work_orders "" none st ↔ r ∈ workOrderJoin st) ∧
    (∀ kw ty kws r, bucketOf (normType (some ty)) = some kws →
        (r ∈ filter_work_orders kw (some ty) st ↔
          r ∈ workOrderJoin st ∧
            ∃ so ∈ servOpts st r.wo.id, ∃ po ∈ partOpts st r.wo.id,
              (normKeyword kw = [] ∨ filterKwCond (normKeyword kw) r so po = true) ∧
              typeCond kws so po = true)) := by
  have hchar : ∀ kw ty kws r, bucketOf (normType (some ty)) = some kws →
      (r ∈ filter_work_orders kw (some ty) st ↔
        r ∈ workOrderJoin st ∧
          ∃ so ∈ servOpts st r.wo.id, ∃ po ∈ partOpts st r.wo.id,
            (normKeyword kw = [] ∨ filterKwCond (normKeyword kw) r so po = true) ∧
            typeCond kws so po = true) := by
    intro kw ty kws r hb
    rw [filter_work_orders, mem_woQuery]
    refine and_congr_right fun _ => ?_
    simp only [List.any_eq_true, filterLineCond, hb, Bool.and_eq_true]
    refine exists_congr fun so => and_congr_right fun _ =>
      exists_congr fun po => and_congr_right fun _ => and_congr_left fun _ => ?_
    by_cases hk : normKeyword kw = []
    · simp [hk]
    · simp [hk]
  refine ⟨?_, ?_, ⟨sortBy_perm _ _, pairwise_sortBy _ dateDesc_total dateDesc_trans _⟩,
    ?_, hchar⟩
  · intro kw ty r hr
    rw [filter_work_orders, mem_woQuery] at hr
    rcases hr with ⟨hj, hcond⟩
    rcases List.any_eq_true.mp hcond with ⟨so, hso, h2⟩
    rcases List.any_eq_true.mp h2 with ⟨po, hpo, h3⟩
    rw [filterLineCond, Bool.and_eq_true] at h3
    rcases h3 with ⟨hkw, hty⟩
    constructor
    · rw [filter_work_orders, mem_woQuery]
      refine ⟨hj, List.any_eq_true.mpr ⟨so, hso, List.any_eq_true.mpr ⟨po, hpo, ?_⟩⟩⟩
      show filterLineCond (normKeyword kw) (normType none) r so po = true
      rw [filterLineCond]
      rw [show bucketOf (normType none) = none from rfl, Bool.and_eq_true]
      exact ⟨hkw, rfl⟩
    · rw [filter_work_orders, mem_woQuery]
      refine ⟨hj, List.any_eq_true.mpr ⟨so, hso, List.any_eq_true.mpr ⟨po, hpo, ?_⟩⟩⟩
      show filterLineCond (normKeyword "") (normType (some ty)) r so po = true
      rw [filterLineCond]
      rw [show normKeyword "" = ([] : Str) from rfl, if_pos rfl, Bool.true_and]
      exact hty
  · intro statusF l r
    unfold statusPostFilter
    rw [List.mem_filter]
    simp
  · intro r
    rw [filter_work_orders, mem_woQuery]
    constructor
    · exact fun h => h.1
    · intro hj
      refine ⟨hj, ?_⟩
      rcases List.exists_mem_of_ne_nil _
        (show servOpts st r.wo.id ≠ [] from optList_ne_nil _) with ⟨so, hso⟩
      rcases List.exists_mem_of_ne_nil _
        (show partOpts st r.wo.id ≠ [] from optList_ne_nil _) with ⟨po, hpo⟩
      refine List.any_eq_true.mpr ⟨so, hso, List.any_eq_true.mpr ⟨po, hpo, ?_⟩⟩
      rw [filterLineCond]
      rw [show normKeyword "" = [] from rfl, show normType none = [] from rfl]
      rw [show bucketOf [] = none from rfl]
      simp

/-- C4 counterexample: keyword "alpha" and type "Corrective" each individually
return `stTwo`'s order (via different services), but the combined call drops
it, so the combination is not the order-level AND of the two filters. -/
theorem filter_and_composition_counterexample :
    rowTwo ∈ filter_work_orders "alpha" none stTwo ∧
    rowTwo ∈ filter_work_orders "" (some "Corrective") stTwo ∧
    ¬ rowTwo ∈ filter_work_orders "alpha" (some "Corrective") stTwo :=
  ⟨by decide, by decide, by decide⟩

theorem filter_composition_witness :
    rowOil ∈ filter_work_orders "oil" (some "Preventive") stOil ∧
    (rowOil ∈ filter_work_orders "oil" none stOil ∧
      rowOil ∈ filter_work_orders "" (some "Preventive") stOil) :=
  ⟨by decide, (filter_composition stOil).1 "oil" "Preventive" rowOil (by decide)⟩

/-- C5 (amended: the function takes no date bounds). `get_revenue_by_period`
returns at most 12 rows, with pairwise-distinct periods in descending order;
the number of rows is exactly `min 12` (number of distinct Completed
periods); every row's counts, sum and average are those of exactly the
Completed work orders of its period (over the whole table) and come from a
nonempty group; every Completed order whose period is at least as recent as
some retained period has its own period retained (so the report holds
precisely the most recent periods); and prepending a non-Completed order
(e.g. an Open one in a queried month) leaves the whole report unchanged. -/
theorem revenue_by_period_correct (period : String) (st : DBState) :
    (get_revenue_by_period period st).length ≤ 12 ∧
    ((get_revenue_by_period period st).Pairwise fun a b => lexLe b.period a.period = true) ∧
    ((get_revenue_by_period period st).map fun e => e.period).Nodup ∧
    (get_revenue_by_period period st).length =
      min 12 (dedupFirst ((st.workOrders.filter fun wo =>
        wo.status == "Completed").map fun wo => periodKey period wo.entry_date)).length ∧
    (∀ e ∈ get_revenue_by_period period st,
      ¬ (st.workOrders.filter fun wo =>
          wo.status == "Completed" && (periodKey period wo.entry_date == e.period)) = [] ∧
      e.order_count = (st.workOrders.filter fun wo =>
          wo.status == "Completed" && (periodKey period wo.entry_date == e.period)).length ∧
      e.revenue = ((st.workOrders.filter fun wo =>
          wo.status == "Completed" && (periodKey period wo.entry_date == e.period)).map
            fun wo => wo.total_cost).sum ∧
      e.avg_order_value = e.revenue / (e.order_count : Rat)) ∧
    (∀ wo ∈ st.workOrders, wo.status = "Completed" →
      ∀ e ∈ get_revenue_by_period period st,
        lexLe e.period (periodKey period wo.entry_date) = true →
        ∃ e2 ∈ get_revenue_by_period period st,
          e2.period = periodKey period wo.entry_date) ∧
    (∀ wo2 : WorkOrder, ¬ wo2.status = "Completed" →
      get_revenue_by_period period { st with workOrders := wo2 :: st.workOrders } =
        get_revenue_by_period period st) := by
  have hgrp : ∀ k : Str,
      ((st.workOrders.filter fun wo => wo.status == "Completed").filter
        fun wo => periodKey period wo.entry_date == k) =
      (st.workOrders.filter fun wo =>
        wo.status == "Completed" && (periodKey period wo.entry_date == k)) := by
    intro k
    rw [List.filter_filter]
    exact List.filter_congr fun a _ => Bool.and_comm _ _
  have hmap : (get_revenue_by_period period st).map (fun e => e.period) =
      (sortBy (fun a b => lexLe b a) (dedupFirst ((st.workOrders.filter fun wo =>
        wo.status == "Completed").map fun wo => periodKey period wo.entry_date))).take 12 := by
    rw [get_revenue_by_period, List.map_map]
    exact List.map_id' _
  refine ⟨?_, ?_, ?_, ?_, ?_, ?_, ?_⟩
  · rw [get_revenue_by_period]
    rw [List.length_map, List.length_take]
    exact Nat.min_le_left _ _
  · rw [get_revenue_by_period, List.pairwise_map]
    exact (pairwise_sortBy (fun a b => lexLe b a)
      (fun a b => (lexLe_total b a).imp id id)
      (fun a b c h1 h2 => lexLe_trans c b a h2 h1) _).sublist
      (List.take_sublist _ _) |>.imp fun h => h
  · rw [hmap]
    exact (nodup_sortBy _ _ (nodup_dedupFirst _)).sublist (List.take_sublist _ _)
  · rw [get_revenue_by_period, List.length_map, List.length_take,
      (sortBy_perm _ _).length_eq]
  · intro e he
    rw [get_revenue_by_period] at he
    rcases List.mem_map.mp he with ⟨k, hk, rfl⟩
    have hk2 : k ∈ dedupFirst ((st.workOrders.filter fun wo =>
        wo.status == "Completed").map fun wo => periodKey period wo.entry_date) :=
      (mem_sortBy _ _ k).mp (List.mem_of_mem_take hk)
    rw [mem_dedupFirst] at hk2
    rcases List.mem_map.mp hk2 with ⟨wo, hwo, hkey⟩
    refine ⟨?_, ?_, ?_, rfl⟩
    · intro hnil
      have : wo ∈ (st.workOrders.filter fun wo =>
          wo.status == "Completed" && (periodKey period wo.entry_date == k)) := by
        rcases List.mem_filter.mp hwo with ⟨hw1, hw2⟩
        exact List.mem_filter.mpr ⟨hw1, by rw [Bool.and_eq_true]; exact ⟨hw2, by simp [hkey]⟩⟩
      rw [hnil] at this
      exact absurd this (List.not_mem_nil _)
    · show ((st.workOrders.filter fun wo => wo.status == "Completed").filter
        fun wo => periodKey period wo.entry_date == k).length = _
      rw [hgrp]
    · show (((st.workOrders.filter fun wo => wo.status == "Completed").filter
        fun wo => periodKey period wo.entry_date == k).map fun wo => wo.total_cost).sum = _
      rw [hgrp]
  · intro wo hwo hst e he hle
    have hk0mem : periodKey period wo.entry_date ∈
        sortBy (fun a b => lexLe b a) (dedupFirst ((st.workOrders.filter fun wo =>
          wo.status == "Completed").map fun wo => periodKey period wo.entry_date)) := by
      rw [mem_sortBy, mem_dedupFirst]
      exact List.mem_map.mpr ⟨wo, List.mem_filter.mpr ⟨hwo, by simp [hst]⟩, rfl⟩
    rw [← List.take_append_drop 12 (sortBy (fun a b => lexLe b a)
      (dedupFirst ((st.workOrders.filter fun wo =>
        wo.status == "Completed").map fun wo => periodKey period wo.entry_date)))] at hk0mem
    rcases List.mem_append.mp hk0mem with htake | hdrop
    · have hk0' : periodKey period wo.entry_date ∈
          (get_revenue_by_period period st).map fun e => e.period := by
        rw [hmap]
        exact htake
      rcases List.mem_map.mp hk0' with ⟨e2, he2, hpe2⟩
      exact ⟨e2, he2, hpe2⟩
    · have hpw := pairwise_sortBy (fun a b => lexLe b a)
        (fun a b => (lexLe_total b a).imp id id)
        (fun a b c h1 h2 => lexLe_trans c b a h2 h1)
        (dedupFirst ((st.workOrders.filter fun wo =>
          wo.status == "Completed").map fun wo => periodKey period wo.entry_date))
      rw [← List.take_append_drop 12 (sortBy (fun a b => lexLe b a)
        (dedupFirst ((st.workOrders.filter fun wo =>
          wo.status == "Completed").map fun wo => periodKey period wo.entry_date)))] at hpw
      have hcross := (List.pairwise_append.mp hpw).2.2
      have he' := he
      rw [get_revenue_by_period] at he'
      rcases List.mem_map.mp he' with ⟨ke, hke, hfe⟩
      have hpe : e.period = ke := by rw [← hfe]
      rw [hpe] at hle
      have h1 : lexLe (periodKey period wo.entry_date) ke = true :=
        hcross ke hke _ hdrop
      have heq : ke = periodKey period wo.entry_date := lexLe_antisymm _ _ hle h1
      exact ⟨e, he, by rw [hpe, heq]⟩
  · intro wo2 h2
    have hf : ((wo2 :: st.workOrders).filter fun wo => wo.status == "Completed") =
        (st.workOrders.filter fun wo => wo.status == "Completed") := by
      rw [List.filter_cons_of_neg]
      simp [h2]
    rw [get_revenue_by_period, get_revenue_by_period]
    rw [show ({ st with workOrders := wo2 :: st.workOrders } : DBState).workOrders =
      wo2 :: st.workOrders from rfl, hf]

/-- C5 counterexample: the claim says the report is optionally bounded by an
inclusive entry-date range, but the function has no bounds: the monthly
report over `stRev` contains the 1990 period, which any 2024 date bound
per the claim's reading would exclude. -/
theorem revenue_by_period_unbounded_counterexample :
    ("1990-01".data ∈ (get_revenue_by_period "monthly" stRev).map fun e => e.period) ∧
    (¬ "1990-01".data ∈
      (get_revenue_by_period_bounded "monthly" "2024-01-01" "2024-12-31" stRev).map
        fun e => e.period) ∧
    ¬ get_revenue_by_period "monthly" stRev =
        get_revenue_by_period_bounded "monthly" "2024-01-01" "2024-12-31" stRev := by
  refine ⟨by decide, by decide, fun h => ?_⟩
  have h1 : ("1990-01".data ∈ (get_revenue_by_period "monthly" stRev).map
    fun e => e.period) := by decide
  rw [h] at h1
  exact absurd h1 (by decide)

theorem revenue_by_period_correct_witness :
    ¬ woOpen.status = "Completed" ∧
    get_revenue_by_period "monthly" { stRev with workOrders := woOpen :: stRev.workOrders } =
      get_revenue_by_period "monthly" stRev :=
  ⟨by decide,
   (revenue_by_period_correct "monthly" stRev).2.2.2.2.2.2 woOpen (by decide)⟩

end Workshop
